import Mathlib

/-!
Verification of the `reqse` HTTP/1.x message codec.

The Rust sources are shallowly embedded here:
  * bytes and unicode scalar values are `Nat`;
  * Rust `String` / `&str` values are lists of unicode scalar values
    (`Str := List Nat`), and raw buffers are lists of bytes (`List Nat`);
  * fallible operations return `Option` / a `PResult` type; a Rust panic
    (out-of-bounds slice, a reached placeholder) is the `PResult.panic`
    outcome;
  * `std::collections::HashMap` is modelled as an association list with
    unique keys; insertion overwrites in place or appends, and iteration
    follows the list order (one admissible iteration order of the hash map).
-/

namespace Reqse

/-- Unicode scalar values of a Rust string (one `Nat` per `char`). -/
abbrev Str := List Nat

/-- Embed a Lean string literal as a list of unicode scalar values. -/
def strOf (s : String) : Str := s.data.map (fun c => c.toNat)

/-- The error taxonomy of `src/error.rs`. -/
inductive Error where
  | InvalidHeader
  | InvalidUtf8
  | NotEnoughData
  deriving DecidableEq, Repr

/-- Outcome of a Rust computation that can return `Ok`, return `Err`,
or panic (out-of-bounds slice index, `todo` placeholder). -/
inductive PResult (α : Type) where
  | ok (a : α)
  | err (e : Error)
  | panic
  deriving DecidableEq, Repr

namespace PResult

def bind {α β : Type} : PResult α → (α → PResult β) → PResult β
  | .ok a, f => f a
  | .err e, _ => .err e
  | .panic, _ => .panic

instance : Monad PResult where
  pure := .ok
  bind := PResult.bind


end PResult

instance {ε α : Type} [DecidableEq ε] [DecidableEq α] : DecidableEq (Except ε α)
  | .ok a, .ok b =>
    if h : a = b then isTrue (by rw [h]) else isFalse (by intro hh; cases hh; exact h rfl)
  | .ok _, .error _ => isFalse (by intro h; cases h)
  | .error _, .ok _ => isFalse (by intro h; cases h)
  | .error a, .error b =>
    if h : a = b then isTrue (by rw [h]) else isFalse (by intro hh; cases hh; exact h rfl)

/-- Rust's `Option::ok_or` followed by `?`. -/
def optToP {α : Type} (o : Option α) (e : Error) : PResult α :=
  match o with
  | some a => .ok a
  | none => .err e


/-- Rust's slice expression `&l[..n]`: panics when `n` exceeds the length. -/
def sliceTo {α : Type} (l : List α) (n : Nat) : PResult (List α) :=
  if n ≤ l.length then .ok (l.take n) else .panic

/-- `char::is_whitespace`: the Unicode `White_Space` property,
used by Rust's `str::trim` and `str::split_whitespace`. -/
def isWsChar (c : Nat) : Bool :=
  c = 0x09 || c = 0x0A || c = 0x0B || c = 0x0C || c = 0x0D || c = 0x20 ||
  c = 0x85 || c = 0xA0 || c = 0x1680 ||
  (0x2000 ≤ c && c ≤ 0x200A) ||
  c = 0x2028 || c = 0x2029 || c = 0x202F || c = 0x205F || c = 0x3000

/-- Decidable list-prefix test (by taking and comparing). -/
def isPrefixL (p s : List Nat) : Bool := decide (s.take p.length = p)

/-- Index of the leftmost occurrence of the pattern `p` as a contiguous
sub-list of `s` (the search Rust's `str::find`-family performs). -/
def findSubIdx (p : List Nat) : List Nat → Option Nat
  | [] => if isPrefixL p [] then some 0 else none
  | c :: r => if isPrefixL p (c :: r) then some 0 else (findSubIdx p r).map (· + 1)

/-- Rust's `str::split_once(pat)`: split at the leftmost occurrence of `pat`,
delimiter removed. -/
def splitOnceSub (p s : List Nat) : Option (List Nat × List Nat) :=
  (findSubIdx p s).map (fun i => (s.take i, s.drop (i + p.length)))


/-- Fuel-driven worker for `splitOnSub`: each found occurrence of a
non-empty pattern strictly shrinks the text, so `s.length` fuel always
suffices and the fuel never runs out on the wrapper below. -/
def splitOnSubF (p : List Nat) : Nat → List Nat → List (List Nat)
  | _, [] => [[]]
  | 0, s => [s]
  | fuel + 1, s =>
    match findSubIdx p s with
    | none => [s]
    | some i => s.take i :: splitOnSubF p fuel (s.drop (i + p.length))

/-- Rust's `str::split(pat)` for a non-empty pattern: splits at every
(leftmost-first, non-overlapping) occurrence, keeping empty segments. -/
def splitOnSub (p : List Nat) (s : List Nat) : List (List Nat) :=
  splitOnSubF p s.length s


/-- `str::trim_start` restricted to the `is_whitespace` predicate. -/
def trimLeftW : List Nat → List Nat
  | [] => []
  | c :: r => if isWsChar c then trimLeftW r else c :: r

/-- `str::trim_end`. -/
def trimRightW (s : List Nat) : List Nat := (trimLeftW s.reverse).reverse

/-- Rust's `str::trim`. -/
def trimW (s : List Nat) : List Nat := trimRightW (trimLeftW s)


/-- Fuel-driven worker for `splitWs`; `s.length` fuel always suffices. -/
def splitWsF : Nat → List Nat → List (List Nat)
  | _, [] => []
  | 0, s => [s]
  | fuel + 1, c :: r =>
    if isWsChar c then splitWsF fuel r
    else (c :: r.takeWhile (fun d => !isWsChar d)) ::
      splitWsF fuel (r.dropWhile (fun d => !isWsChar d))

/-- Rust's `str::split_whitespace`: maximal runs of non-whitespace characters. -/
def splitWs (s : List Nat) : List (List Nat) := splitWsF s.length s


/-- ASCII decimal digit. -/
def isDigitChar (c : Nat) : Bool := 0x30 ≤ c && c ≤ 0x39

/-- Big-endian decimal value of a digit string. -/
def digitsVal (s : List Nat) : Nat := s.foldl (fun a c => 10 * a + (c - 0x30)) 0

/-- Rust's `str::parse::<usize>` (`u64` target): an optional leading `+`,
then one or more ASCII digits, rejecting overflow past `2^64 - 1`. -/
def parseUsize? (s : List Nat) : Option Nat :=
  let digits := match s with
    | c :: r => if c = 0x2B then r else s
    | [] => s
  if digits ≠ [] ∧ digits.all isDigitChar ∧ digitsVal digits < 2 ^ 64 then
    some (digitsVal digits)
  else none

/-- Fuel-driven worker for `natToStrRev`; `n` fuel always suffices. -/
def natToStrRevF : Nat → Nat → List Nat
  | _, 0 => []
  | 0, _ + 1 => []
  | f + 1, n + 1 => (0x30 + (n + 1) % 10) :: natToStrRevF f ((n + 1) / 10)

/-- Decimal rendering of `usize` (its `Display`), least-significant digit
first before the final reverse. -/
def natToStrRev (n : Nat) : List Nat := natToStrRevF n n


/-- `usize` to its decimal string. -/
def natToStr (n : Nat) : List Nat :=
  if n = 0 then [0x30] else (natToStrRev n).reverse

/-- UTF-8 continuation byte. -/
def isContByte (b : Nat) : Bool := 0x80 ≤ b && b ≤ 0xBF

/-- One step of Rust's `std::str::from_utf8` validation: decode the
leading UTF-8 sequence (rejecting overlong forms, surrogates and values
past `U+10FFFF`) and return the scalar value with the remaining bytes. -/
def utf8Step : List Nat → Option (Nat × List Nat)
  | [] => none
  | b :: r =>
    if b < 0x80 then some (b, r)
    else if b < 0xC2 then none
    else if b ≤ 0xDF then
      match r with
      | b1 :: r1 =>
        if isContByte b1 then some ((b - 0xC0) * 0x40 + (b1 - 0x80), r1) else none
      | [] => none
    else if b ≤ 0xEF then
      match r with
      | b1 :: b2 :: r2 =>
        if (if b = 0xE0 then 0xA0 ≤ b1 && b1 ≤ 0xBF
            else if b = 0xED then 0x80 ≤ b1 && b1 ≤ 0x9F
            else isContByte b1) && isContByte b2 then
          some ((b - 0xE0) * 0x1000 + (b1 - 0x80) * 0x40 + (b2 - 0x80), r2)
        else none
      | _ => none
    else if b ≤ 0xF4 then
      match r with
      | b1 :: b2 :: b3 :: r3 =>
        if (if b = 0xF0 then 0x90 ≤ b1 && b1 ≤ 0xBF
            else if b = 0xF4 then 0x80 ≤ b1 && b1 ≤ 0x8F
            else isContByte b1) && isContByte b2 && isContByte b3 then
          some ((b - 0xF0) * 0x40000 + (b1 - 0x80) * 0x1000 +
            (b2 - 0x80) * 0x40 + (b3 - 0x80), r3)
        else none
      | _ => none
    else none

/-- Fuel-driven decoding loop: every step consumes at least one byte, so
`s.length` fuel always suffices. -/
def utf8DecodeF : Nat → List Nat → Option (List Nat)
  | _, [] => some []
  | 0, _ :: _ => none
  | fuel + 1, s =>
    match utf8Step s with
    | some (c, rest) => (utf8DecodeF fuel rest).map (c :: ·)
    | none => none

/-- Rust's `std::str::from_utf8` validation and decoding. -/
def utf8Decode? (s : List Nat) : Option (List Nat) := utf8DecodeF s.length s

/-- UTF-8 encoding of one scalar value (`String::as_bytes` per char). -/
def utf8EncodeChar (c : Nat) : List Nat :=
  if c < 0x80 then [c]
  else if c < 0x800 then [0xC0 + c / 0x40, 0x80 + c % 0x40]
  else if c < 0x10000 then
    [0xE0 + c / 0x1000, 0x80 + c / 0x40 % 0x40, 0x80 + c % 0x40]
  else
    [0xF0 + c / 0x40000, 0x80 + c / 0x1000 % 0x40, 0x80 + c / 0x40 % 0x40,
     0x80 + c % 0x40]

/-- `String::as_bytes` / `String::into_bytes`. -/
def utf8Encode (s : Str) : List Nat := (s.map utf8EncodeChar).flatten

/-- Position one past the first `\r\n\r\n` window of the buffer:
`buffer.windows(4).enumerate().find(CRLFCRLF).map(|(i, _)| i + 4)`. -/
def findBoundaryMid (buf : List Nat) : Option Nat :=
  (findSubIdx [13, 10, 13, 10] buf).map (· + 4)

/-! ### HashMap model: association list with unique keys -/

/-- One admissible state of a `HashMap<String, String>`. -/
abbrev HMap := List (Str × Str)

/-- `HashMap::get`. -/
def hmGet (m : HMap) (k : Str) : Option Str :=
  (m.find? (fun p => p.1 = k)).map (·.2)

/-- `HashMap::insert`: overwrite the value in place, or append a new entry. -/
def hmInsert (m : HMap) (k v : Str) : HMap :=
  if m.any (fun p => p.1 = k) then
    m.map (fun p => if p.1 = k then (k, v) else p)
  else m ++ [(k, v)]

/-- `HashMap::remove` (dropping the returned value). -/
def hmRemove (m : HMap) (k : Str) : HMap :=
  m.filter (fun p => p.1 ≠ k)

/-- `.collect::<Result<HashMap<_, _>, _>>()` over header lines: split each
line once on `": "`, stopping at the first malformed line. -/
def collectHeaders : List Str → HMap → PResult HMap
  | [], m => .ok m
  | line :: rest, m =>
    match splitOnceSub (strOf ": ") line with
    | some (k, v) => collectHeaders rest (hmInsert m k v)
    | none => .err .InvalidHeader

/-! ### Enumerated vocabulary: `src/method.rs`, `src/version.rs`, `src/status.rs` -/

inductive Method where
  | Get | Post | Put | Delete
  deriving DecidableEq, Repr

/-- `impl FromStr for Method` (`src/method.rs`). -/
def Method.from_str (s : Str) : PResult Method :=
  if s = strOf "GET" then .ok .Get
  else if s = strOf "POST" then .ok .Post
  else if s = strOf "PUT" then .ok .Put
  else if s = strOf "DELETE" then .ok .Delete
  else .err .InvalidHeader

/-- `Method::to_static_str`. -/
def Method.to_static_str : Method → Str
  | .Get => strOf "GET"
  | .Post => strOf "POST"
  | .Put => strOf "PUT"
  | .Delete => strOf "DELETE"

inductive Version where
  | Http0 | Http1 | Http2 | Http3
  deriving DecidableEq, Repr

/-- `impl FromStr for Version` (`src/version.rs`). -/
def Version.from_str (s : Str) : PResult Version :=
  if s = strOf "HTTP/1.0" then .ok .Http0
  else if s = strOf "HTTP/1.1" then .ok .Http1
  else if s = strOf "HTTP/2" then .ok .Http2
  else if s = strOf "HTTP/3" then .ok .Http3
  else .err .InvalidHeader

/-- `Version::to_static`. -/
def Version.to_static : Version → Str
  | .Http0 => strOf "HTTP/1.0"
  | .Http1 => strOf "HTTP/1.1"
  | .Http2 => strOf "HTTP/2"
  | .Http3 => strOf "HTTP/3"

inductive Status where
  | Ok | MultipleChoices
  | BadRequest | Unauthorized | Forbidden | NotFound | MethodNotAllowed
  | IamATeapot
  | InternalServerError | NotImplemented | ServiceUnavailable
  | HttpVersionNotSupported
  deriving DecidableEq, Repr

/-- `impl FromStr for Status` (`src/status.rs`): trim, split the numeric
code off at the first space, dispatch on the code — and fall through to a
`todo` placeholder (a panic) for every unmatched code, `501` included:
the match in the source has no `"501"` arm. -/
def Status.from_str (s : Str) : PResult Status :=
  match splitOnceSub (strOf " ") (trimW s) with
  | none => .err .InvalidHeader
  | some (num, _) =>
    if num = strOf "200" then .ok .Ok
    else if num = strOf "300" then .ok .MultipleChoices
    else if num = strOf "400" then .ok .BadRequest
    else if num = strOf "401" then .ok .Unauthorized
    else if num = strOf "403" then .ok .Forbidden
    else if num = strOf "404" then .ok .NotFound
    else if num = strOf "405" then .ok .MethodNotAllowed
    else if num = strOf "418" then .ok .IamATeapot
    else if num = strOf "500" then .ok .InternalServerError
    else if num = strOf "503" then .ok .ServiceUnavailable
    else if num = strOf "505" then .ok .HttpVersionNotSupported
    else .panic

/-- `Status::to_static_str`. -/
def Status.to_static_str : Status → Str
  | .Ok => strOf "200 OK"
  | .MultipleChoices => strOf "300 Multiple Choices"
  | .BadRequest => strOf "400 Bad Request"
  | .Unauthorized => strOf "401 Unauthorized"
  | .Forbidden => strOf "403 Forbidden"
  | .NotFound => strOf "404 Not Found"
  | .MethodNotAllowed => strOf "405 Method Not Allowed"
  | .IamATeapot => strOf "418 Im a teapot"
  | .InternalServerError => strOf "500 Internal Server Error"
  | .NotImplemented => strOf "501 Not Implemented"
  | .ServiceUnavailable => strOf "503 Service Unavailable"
  | .HttpVersionNotSupported => strOf "505 HTTP Version Not Supported"

/-! ### Request: `src/request.rs` -/

structure Request where
  version : Version
  uri : Str
  method : Method
  headers : HMap
  body : List Nat
  deriving DecidableEq, Repr

structure RequestBuilder where
  version : Option Version
  uri : Option Str
  method : Method
  headers : HMap
  body : Option (List Nat)
  deriving DecidableEq, Repr

/-- `RequestBuilder::new`. -/
def RequestBuilder.new (method : Method) : RequestBuilder :=
  { version := none, uri := none, method, headers := [], body := none }

/-- `RequestBuilder::finish` (`src/request.rs`): apply defaults, then
derive `Content-Length` from the accumulated body (remove when empty). -/
def RequestBuilder.finish (b : RequestBuilder) : Request :=
  let uri := b.uri.getD (strOf "/")
  let method := b.method
  let version := b.version.getD .Http1
  let body := b.body.getD []
  let headers :=
    if body.isEmpty then hmRemove b.headers (strOf "Content-Length")
    else hmInsert b.headers (strOf "Content-Length") (natToStr body.length)
  { version, uri, method, headers, body }

/-- `Request::from_bytes`. The inverted guard of the source —
`if content_len < body.len() { return Err(NotEnoughData) }` followed by
`&body[..content_len]` — is translated verbatim; the slice panics whenever
`content_len` exceeds the available body. -/
def Request.from_bytes (buffer : List Nat) : PResult Request := do
  let mid ← optToP (findBoundaryMid buffer) .NotEnoughData
  let headerBytes := buffer.take mid
  let bodyRegion := buffer.drop mid
  let headerStr ← optToP (utf8Decode? headerBytes) .InvalidUtf8
  let (requestLine, headerLines) ←
    optToP (splitOnceSub (strOf "\r\n") headerStr) .InvalidHeader
  -- `request_line.split_whitespace()` consumed as an iterator
  let toks := splitWs requestLine
  let mtok ← optToP toks.head? .InvalidHeader
  let method ← Method.from_str mtok
  let uri ← optToP toks.tail.head? .InvalidHeader
  let vtok ← optToP toks.tail.tail.head? .InvalidHeader
  let version ← Version.from_str vtok
  if (toks.tail.tail.tail.head?).isSome then .err .InvalidHeader
  else do
    let headers ← collectHeaders
      ((splitOnSub (strOf "\r\n") (trimW headerLines)).filter (fun l => l ≠ [])) []
    let contentLen ← optToP
      (parseUsize? ((hmGet headers (strOf "Content-Length")).getD (strOf "0")))
      .InvalidHeader
    if contentLen < bodyRegion.length then .err .NotEnoughData
    else do
      let body ← sliceTo bodyRegion contentLen
      .ok { version, uri, method, headers, body }

/-- `Request::to_bytes`. -/
def Request.to_bytes (r : Request) : List Nat :=
  utf8Encode r.method.to_static_str ++ [0x20] ++
  utf8Encode r.uri ++ [0x20] ++
  utf8Encode r.version.to_static ++
  (r.headers.map (fun kv =>
    [13, 10] ++ utf8Encode kv.1 ++ [0x3A, 0x20] ++ utf8Encode kv.2)).flatten ++
  [13, 10, 13, 10] ++ r.body

/-! ### Response: `src/response.rs` -/

structure Response where
  version : Version
  status : Status
  header : HMap
  body : Option (List Nat)
  deriving DecidableEq, Repr

structure ResponseBuilder where
  version : Option Version
  status : Status
  header : HMap
  body : Option (List Nat)
  deriving DecidableEq, Repr

/-- `ResponseBuilder::new` (`src/response.rs`). -/
def ResponseBuilder.new (status : Status) : ResponseBuilder :=
  { version := none, status, header := [], body := none }

/-- `ResponseBuilder::body` setter. -/
def ResponseBuilder.setBody (b : ResponseBuilder) (body : List Nat) : ResponseBuilder :=
  { b with body := some body }

/-- `ResponseBuilder::finish` (`src/response.rs`): when a body was set —
even an empty one — `Content-Length` is set to its length; only when no
body was set is the header removed. -/
def ResponseBuilder.finish (b : ResponseBuilder) : Response :=
  let version := b.version.getD .Http1
  let status := b.status
  let body := b.body
  let header :=
    match body.map List.length with
    | some len => hmInsert b.header (strOf "Content-Length") (natToStr len)
    | none => hmRemove b.header (strOf "Content-Length")
  { version, status, header, body }

/-- `Response::from_bytes`, with the same verbatim inverted length guard
as `Request::from_bytes`. -/
def Response.from_bytes (buf : List Nat) : PResult Response := do
  let mid ← optToP (findBoundaryMid buf) .NotEnoughData
  let headerBytes := buf.take mid
  let bodyRegion := buf.drop mid
  let headerStr ← optToP (utf8Decode? headerBytes) .InvalidUtf8
  let (requestLine, headerLines) ←
    optToP (splitOnceSub (strOf "\r\n") headerStr) .InvalidHeader
  let (vtok, stok) ← optToP (splitOnceSub (strOf " ") requestLine) .InvalidHeader
  let version ← Version.from_str (trimW vtok)
  let status ← Status.from_str (trimW stok)
  let header ← collectHeaders
    ((splitOnSub (strOf "\r\n") (trimW headerLines)).filter (fun l => l ≠ [])) []
  let contentLen ← optToP
    (parseUsize? ((hmGet header (strOf "Content-Length")).getD (strOf "0")))
    .InvalidHeader
  if contentLen < bodyRegion.length then .err .NotEnoughData
  else if 0 < contentLen then do
    let body ← sliceTo bodyRegion contentLen
    .ok { version, status, header, body := some body }
  else .ok { version, status, header, body := none }

/-- `Response::to_bytes`. -/
def Response.to_bytes (r : Response) : List Nat :=
  utf8Encode r.version.to_static ++ [0x20] ++
  utf8Encode r.status.to_static_str ++
  (r.header.map (fun kv =>
    [13, 10] ++ utf8Encode kv.1 ++ [0x3A, 0x20] ++ utf8Encode kv.2)).flatten ++
  [13, 10, 13, 10] ++ (r.body.getD [])

/-! ### Serializing builders: `src/request_builder.rs` and
`src/response_builder.rs` — the builders re-exported at the crate root,
whose `finish` serializes the message directly to bytes -/

structure SerRequestBuilder where
  method : Method
  uri : Str
  version : Version
  header : HMap
  body : List Nat
  deriving DecidableEq, Repr

/-- `RequestBuilder::new` (`src/request_builder.rs`): `Version::default()`
is `Http1` (`"HTTP/1.1"`), the header map and body start empty. -/
def SerRequestBuilder.new (method : Method) (uri : Str) : SerRequestBuilder :=
  { method, uri, version := .Http1, header := [], body := [] }

/-- `RequestBuilder::finish` (`src/request_builder.rs`): first derive
`Content-Length` from the accumulated body (`remove` when the body is
empty, `insert` its decimal length otherwise), then write method, uri and
version, each header entry prefixed by `"\r\n"`, the blank line, and the
body. -/
def SerRequestBuilder.finish (b : SerRequestBuilder) : List Nat :=
  let header :=
    if b.body.isEmpty then hmRemove b.header (strOf "Content-Length")
    else hmInsert b.header (strOf "Content-Length") (natToStr b.body.length)
  utf8Encode b.method.to_static_str ++ [0x20] ++
  utf8Encode b.uri ++ [0x20] ++
  utf8Encode b.version.to_static ++
  (header.map (fun kv =>
    [13, 10] ++ utf8Encode kv.1 ++ [0x3A, 0x20] ++ utf8Encode kv.2)).flatten ++
  [13, 10, 13, 10] ++ b.body

structure SerResponseBuilder where
  version : Version
  status : Status
  header : HMap
  body : List Nat
  deriving DecidableEq, Repr

/-- `ResponseBuilder::new` (`src/response_builder.rs`). -/
def SerResponseBuilder.new (status : Status) : SerResponseBuilder :=
  { version := .Http1, status, header := [], body := [] }

/-- `ResponseBuilder::finish` (`src/response_builder.rs`): the source
writes the status line first and only then mutates `self.header` (the
same empty-body `remove` / non-empty `insert` of `Content-Length` as the
request side); the mutation touches nothing already written, so the
output is the same pure function of the fields: status line, the header
entries of the mutated map each prefixed by `"\r\n"`, the blank line,
and the body. -/
def SerResponseBuilder.finish (b : SerResponseBuilder) : List Nat :=
  let header :=
    if b.body.isEmpty then hmRemove b.header (strOf "Content-Length")
    else hmInsert b.header (strOf "Content-Length") (natToStr b.body.length)
  utf8Encode b.version.to_static ++ [0x20] ++
  utf8Encode b.status.to_static_str ++
  (header.map (fun kv =>
    [13, 10] ++ utf8Encode kv.1 ++ [0x3A, 0x20] ++ utf8Encode kv.2)).flatten ++
  [13, 10, 13, 10] ++ b.body

/-! ### Zero-copy header collection: `src/header_map.rs` -/

/-- `HeaderMap::new`: trim the block, and fail with `InvalidHeader` when
any non-empty line lacks a `": "` occurrence; the stored state is the
trimmed block. -/
def HeaderMap.new (header : Str) : Except Error Str :=
  let h := trimW header
  let err := (((splitOnSub (strOf "\r\n") h).filter (fun l => l ≠ [])).map
    (fun l => splitOnceSub (strOf ": ") l)).find? (fun o => o.isNone)
  if err.isSome then .error .InvalidHeader else .ok h

/-- The pair sequence produced by exhausting `HeaderMapIter`: `next` takes
the text up to the next `\r\n` as the current line, then — as written in
the source — splits that line on `"\r\n"` again (not on `": "`), so it
yields `None` the moment a line holds no `\r\n`, ending the iteration. -/
def headerMapIterToListF : Nat → Str → List (Str × Str)
  | _, [] => []
  | 0, _ :: _ => []
  | fuel + 1, inner =>
    match splitOnceSub (strOf "\r\n") inner with
    | some lr =>
      match splitOnceSub (strOf "\r\n") lr.1 with
      | some p => p :: headerMapIterToListF fuel lr.2
      | none => []
    | none => []  -- the line is `inner` itself and holds no `\r\n`: `next` yields `None`

def headerMapIterToList (inner : Str) : List (Str × Str) :=
  headerMapIterToListF inner.length inner

/-- `HeaderMap::len` = `self.iter().count()`. -/
def HeaderMap.len (inner : Str) : Nat := (headerMapIterToList inner).length

/-- `HeaderMap::get` = first pair of the iteration with a matching key. -/
def HeaderMap.get (inner : Str) (key : Str) : Option Str :=
  ((headerMapIterToList inner).find? (fun p => p.1 = key)).map (·.2)

/-- `HeaderMap::contains`. -/
def HeaderMap.contains (inner : Str) (key : Str) : Bool :=
  (HeaderMap.get inner key).isSome


/-! ### Wire-safety predicates and serialization shape helpers (for the
round-trip analysis) -/

/-- The rendered text of one header pair: `name ++ ": " ++ value`. -/
def headerLine (kv : Str × Str) : Str := kv.1 ++ [0x3A, 0x20] ++ kv.2

/-- The header region as the serializer lays it out: a first line followed
by `"\r\n"`-prefixed further lines. -/
def crlfJoin (first : Str) (lines : List Str) : Str :=
  first ++ (lines.map (fun l => [13, 10] ++ l)).flatten

/-- A start-line token that survives `split_whitespace`: non-empty, ASCII,
no whitespace. -/
abbrev tokenSafe (t : Str) : Prop :=
  t ≠ [] ∧ ∀ c ∈ t, c < 0x80 ∧ isWsChar c = false

/-- A header name that parses back to itself: ASCII without CR/LF, no
`": "` occurrence, not starting with whitespace. -/
abbrev keySafe (k : Str) : Prop :=
  (∀ c ∈ k, c < 0x80 ∧ c ≠ 13 ∧ c ≠ 10) ∧
  findSubIdx [0x3A, 0x20] k = none ∧
  k.head?.all (fun c => !isWsChar c) = true

/-- A header value that parses back to itself: non-empty ASCII without
CR/LF, not ending with whitespace. -/
abbrev valSafe (v : Str) : Prop :=
  v ≠ [] ∧ (∀ c ∈ v, c < 0x80 ∧ c ≠ 13 ∧ c ≠ 10) ∧
  v.getLast?.all (fun c => !isWsChar c) = true

/-- A header collection whose serialized form parses back to itself:
unique keys, all entries wire-safe. -/
abbrev hdrsSafe (hs : HMap) : Prop :=
  (hs.map Prod.fst).Nodup ∧ ∀ kv ∈ hs, keySafe kv.1 ∧ valSafe kv.2

/-! ### Lemmas about the embedded primitives -/

@[simp] theorem PResult.bind_ok {α β : Type} (a : α) (f : α → PResult β) :
    PResult.bind (.ok a) f = f a := rfl

@[simp] theorem PResult.bind_err {α β : Type} (e : Error) (f : α → PResult β) :
    PResult.bind (.err e) f = .err e := rfl

@[simp] theorem PResult.bind_panic {α β : Type} (f : α → PResult β) :
    PResult.bind .panic f = .panic := rfl

@[simp] theorem PResult.monad_bind_eq_bind {α β : Type} (x : PResult α) (f : α → PResult β) :
    x >>= f = PResult.bind x f := rfl

@[simp] theorem PResult.pure_eq_ok {α : Type} (a : α) : (pure a : PResult α) = .ok a := rfl

@[simp] theorem optToP_some {α : Type} (a : α) (e : Error) : optToP (some a) e = .ok a := rfl
@[simp] theorem optToP_none {α : Type} (e : Error) : optToP (none : Option α) e = .err e := rfl

theorem findSubIdx_some_isPrefix {p s : List Nat} {i : Nat}
    (h : findSubIdx p s = some i) : (s.drop i).take p.length = p := by
  induction s generalizing i with
  | nil =>
    simp only [findSubIdx] at h
    split at h
    · rename_i hp
      simp only [Option.some.injEq] at h
      subst h
      simpa [isPrefixL] using hp
    · exact absurd h (by simp)
  | cons c r ih =>
    simp only [findSubIdx] at h
    split at h
    · rename_i hp
      simp only [Option.some.injEq] at h
      subst h
      simpa [isPrefixL] using hp
    · rename_i hp
      rcases Option.map_eq_some'.mp h with ⟨j, hj, rfl⟩
      simpa using ih hj

theorem findSubIdx_some_le {p s : List Nat} {i : Nat} (hp : p ≠ [])
    (h : findSubIdx p s = some i) : i + p.length ≤ s.length := by
  have hpre := findSubIdx_some_isPrefix h
  have hlen := congrArg List.length hpre
  have hppos : 0 < p.length := List.length_pos.mpr hp
  simp only [List.length_take, List.length_drop] at hlen
  omega

theorem splitOnSubF_fuelFree {p : List Nat} (hp : p ≠ []) :
    ∀ f s, s.length ≤ f → splitOnSubF p f s = splitOnSubF p s.length s := by
  intro f
  induction f using Nat.strong_induction_on with
  | _ f ih =>
    intro s hs
    match s with
    | [] => simp [splitOnSubF]
    | c :: r =>
      match f with
      | 0 => simp at hs
      | g + 1 =>
      have hlen : (c :: r).length = r.length + 1 := rfl
      rw [hlen]
      simp only [splitOnSubF]
      match hf : findSubIdx p (c :: r) with
      | none => rfl
      | some i =>
        have hle := findSubIdx_some_le hp hf
        have hppos : 0 < p.length := List.length_pos.mpr hp
        simp only [List.length_cons] at hle hs
        have hdl : ((c :: r).drop (i + p.length)).length = r.length + 1 - (i + p.length) := by
          simp [List.length_drop]
        simp only []
        congr 1
        rw [ih g (by omega) _ (by rw [hdl]; omega),
            ih r.length (by omega) _ (by rw [hdl]; omega)]

/-- The defining equation of `splitOnSub`, fuel eliminated. -/
theorem splitOnSub_eq {p : List Nat} (hp : p ≠ []) (s : List Nat) :
    splitOnSub p s = match findSubIdx p s with
      | none => [s]
      | some i => s.take i :: splitOnSub p (s.drop (i + p.length)) := by
  match s with
  | [] =>
    have hne : ([] : List Nat) ≠ p := fun h => hp h.symm
    have hnone : findSubIdx p [] = none := by
      simp [findSubIdx, isPrefixL, hne]
    rw [hnone]
    rfl
  | c :: r =>
    show splitOnSubF p (r.length + 1) (c :: r) = _
    simp only [splitOnSubF]
    match hf : findSubIdx p (c :: r) with
    | none => rfl
    | some i =>
      have hle := findSubIdx_some_le hp hf
      have hppos : 0 < p.length := List.length_pos.mpr hp
      simp only [List.length_cons] at hle
      simp only []
      congr 1
      exact splitOnSubF_fuelFree hp r.length _
        (by simp only [List.length_drop, List.length_cons]; omega)

theorem length_dropWhileLe {α : Type} (p : α → Bool) (l : List α) :
    (l.dropWhile p).length ≤ l.length := by
  induction l with
  | nil => simp [List.dropWhile]
  | cons a r ih =>
    simp only [List.dropWhile]
    split
    · exact Nat.le_trans ih (by simp)
    · simp

theorem splitWsF_fuelFree :
    ∀ f s, s.length ≤ f → splitWsF f s = splitWsF s.length s := by
  intro f
  induction f using Nat.strong_induction_on with
  | _ f ih =>
    intro s hs
    match s with
    | [] => simp [splitWsF]
    | c :: r =>
      match f with
      | 0 => simp at hs
      | g + 1 =>
      have hlen : (c :: r).length = r.length + 1 := rfl
      rw [hlen]
      simp only [splitWsF]
      simp only [List.length_cons] at hs
      have hdw := length_dropWhileLe (fun d => !isWsChar d) r
      split
      · rw [ih g (by omega) _ (by omega), ih r.length (by omega) _ (by omega)]
      · rw [ih g (by omega) _ (by omega), ih r.length (by omega) _ (by omega)]

/-- The defining equations of `splitWs`, fuel eliminated. -/
theorem splitWs_cons (c : Nat) (r : List Nat) :
    splitWs (c :: r) =
      if isWsChar c then splitWs r
      else (c :: r.takeWhile (fun d => !isWsChar d)) ::
        splitWs (r.dropWhile (fun d => !isWsChar d)) := by
  show splitWsF (r.length + 1) (c :: r) = _
  simp only [splitWsF]
  have hdw := length_dropWhileLe (fun d => !isWsChar d) r
  split
  · exact splitWsF_fuelFree r.length r (by omega)
  · rw [splitWsF_fuelFree r.length _ (by omega)]
    rfl

theorem natToStrRevF_fuelFree :
    ∀ f n, n ≤ f → natToStrRevF f n = natToStrRevF n n := by
  intro f
  induction f using Nat.strong_induction_on with
  | _ f ih =>
    intro n hn
    match n with
    | 0 => simp [natToStrRevF]
    | n + 1 =>
      match f with
      | 0 => simp at hn
      | g + 1 =>
      simp only [natToStrRevF]
      have hdiv : (n + 1) / 10 < n + 1 := Nat.div_lt_self (Nat.succ_pos n) (by omega)
      rw [ih g (by omega) _ (by omega), ih n (by omega) _ (by omega)]

/-- The defining equation of `natToStrRev` at a positive argument. -/
theorem natToStrRev_succ (n : Nat) :
    natToStrRev (n + 1) = (0x30 + (n + 1) % 10) :: natToStrRev ((n + 1) / 10) := by
  show natToStrRevF (n + 1) (n + 1) = _
  simp only [natToStrRevF]
  have hdiv : (n + 1) / 10 < n + 1 := Nat.div_lt_self (Nat.succ_pos n) (by omega)
  rw [natToStrRevF_fuelFree n _ (by omega)]
  rfl

theorem hmGet_map_replace (m : HMap) (k v : Str)
    (hany : m.any (fun p => p.1 = k) = true) :
    hmGet (m.map (fun p => if p.1 = k then (k, v) else p)) k = some v := by
  induction m with
  | nil => simp at hany
  | cons p rest ih =>
    simp only [List.any_cons, Bool.or_eq_true, decide_eq_true_eq] at hany
    simp only [List.map_cons]
    by_cases hp : p.1 = k
    · rw [if_pos hp]
      simp [hmGet, List.find?_cons_of_pos]
    · rw [if_neg hp]
      have hrest : rest.any (fun p => p.1 = k) = true := by
        rcases hany with h | h
        · exact absurd h hp
        · exact h
      simp only [hmGet] at ih ⊢
      rw [List.find?_cons_of_neg _ (by simpa using hp)]
      exact ih hrest

theorem hmGet_append_single (m : HMap) (k v : Str)
    (hnone : m.any (fun p => p.1 = k) = false) :
    hmGet (m ++ [(k, v)]) k = some v := by
  induction m with
  | nil => simp [hmGet, List.find?_cons_of_pos]
  | cons p rest ih =>
    simp only [List.any_cons, Bool.or_eq_false_iff, decide_eq_false_iff_not] at hnone
    simp only [List.cons_append, hmGet]
    rw [List.find?_cons_of_neg _ (by simpa using hnone.1)]
    exact ih (by simpa using hnone.2)

/-- Inserting a key makes it retrievable with the inserted value. -/
theorem hmGet_hmInsert_self (m : HMap) (k v : Str) :
    hmGet (hmInsert m k v) k = some v := by
  simp only [hmInsert]
  split
  · exact hmGet_map_replace m k v (by assumption)
  · rename_i h
    exact hmGet_append_single m k v (Bool.eq_false_iff.mpr h)

/-- Removing a key makes lookup fail. -/
theorem hmGet_hmRemove_self (m : HMap) (k : Str) :
    hmGet (hmRemove m k) k = none := by
  simp only [hmRemove, hmGet, Option.map_eq_none']
  rw [List.find?_eq_none]
  intro p hp
  have := List.of_mem_filter hp
  simpa using this

/-- Lookup on a cons cell: the head answers when its key matches. -/
theorem hmGet_cons (p : Str × Str) (rest : HMap) (u : Str) :
    hmGet (p :: rest) u = if p.1 = u then some p.2 else hmGet rest u := by
  simp only [hmGet]
  by_cases hpu : p.1 = u
  · rw [List.find?_cons_of_pos _ (by simpa using hpu), if_pos hpu, Option.map_some']
  · rw [List.find?_cons_of_neg _ (by simpa using hpu), if_neg hpu]

/-- Removing one key leaves every other key's lookup unchanged. -/
theorem hmGet_hmRemove_ne (m : HMap) (k u : Str) (h : u ≠ k) :
    hmGet (hmRemove m k) u = hmGet m u := by
  induction m with
  | nil => rfl
  | cons p rest ih =>
    by_cases hp : p.1 = k
    · rw [show hmRemove (p :: rest) k = hmRemove rest k from by
        simp [hmRemove, List.filter_cons, hp], ih, hmGet_cons,
        if_neg (fun hc => h ((hp.symm.trans hc).symm))]
    · rw [show hmRemove (p :: rest) k = p :: hmRemove rest k from by
        simp [hmRemove, List.filter_cons, hp], hmGet_cons, hmGet_cons, ih]

/-- In-place replacement at one key leaves every other key's lookup
unchanged. -/
theorem hmGet_map_replace_ne (m : HMap) (k v u : Str) (h : u ≠ k) :
    hmGet (m.map (fun p => if p.1 = k then (k, v) else p)) u = hmGet m u := by
  induction m with
  | nil => rfl
  | cons p rest ih =>
    simp only [List.map_cons]
    by_cases hp : p.1 = k
    · rw [if_pos hp, hmGet_cons, hmGet_cons, ih,
        if_neg (fun hc => h hc.symm),
        if_neg (fun hc => h ((hp.symm.trans hc).symm))]
    · rw [if_neg hp, hmGet_cons, hmGet_cons, ih]

/-- Appending a fresh entry leaves every other key's lookup unchanged. -/
theorem hmGet_append_single_ne (m : HMap) (k v u : Str) (h : u ≠ k) :
    hmGet (m ++ [(k, v)]) u = hmGet m u := by
  induction m with
  | nil =>
    simp only [List.nil_append]
    rw [hmGet_cons, if_neg (fun hc => h hc.symm)]
  | cons p rest ih =>
    simp only [List.cons_append]
    rw [hmGet_cons, hmGet_cons, ih]

/-- Inserting at one key leaves every other key's lookup unchanged. -/
theorem hmGet_hmInsert_ne (m : HMap) (k v u : Str) (h : u ≠ k) :
    hmGet (hmInsert m k v) u = hmGet m u := by
  simp only [hmInsert]
  split
  · exact hmGet_map_replace_ne m k v u h
  · exact hmGet_append_single_ne m k v u h

/-- `findSubIdx` misses exactly when no position carries an occurrence. -/
theorem findSubIdx_eq_none_iff {p : List Nat} (hp : p ≠ []) (s : List Nat) :
    findSubIdx p s = none ↔ ∀ i, (s.drop i).take p.length ≠ p := by
  induction s with
  | nil =>
    constructor
    · intro _ i
      simp only [List.drop_nil, List.take_nil]
      exact fun h => hp h.symm
    · intro _
      simp only [findSubIdx, isPrefixL, List.take_nil]
      rw [if_neg]
      simp only [decide_eq_true_eq]
      exact fun h => hp h.symm
  | cons c r ih =>
    by_cases hpre : isPrefixL p (c :: r) = true
    · simp only [findSubIdx, hpre, if_true]
      constructor
      · intro h; exact absurd h (by simp)
      · intro hall
        exact absurd (by simpa [isPrefixL, decide_eq_true_eq] using hpre) (hall 0)
    · simp only [findSubIdx, hpre, Bool.false_eq_true, if_false, Option.map_eq_none']
      rw [ih]
      constructor
      · intro hall i
        match i with
        | 0 =>
          simp only [List.drop_zero]
          intro hc
          exact hpre (by simpa [isPrefixL, decide_eq_true_eq] using hc)
        | j + 1 =>
          simpa using hall j
      · intro hall i
        simpa using hall (i + 1)

theorem PResult.bind_eq_ok {α β : Type} {x : PResult α} {f : α → PResult β} {r : β} :
    PResult.bind x f = .ok r ↔ ∃ a, x = .ok a ∧ f a = .ok r := by
  cases x <;> simp [PResult.bind]

theorem optToP_eq_ok {α : Type} {o : Option α} {e : Error} {a : α} :
    optToP o e = .ok a ↔ o = some a := by
  cases o <;> simp [optToP]

theorem sliceTo_eq_ok {α : Type} {l : List α} {n : Nat} {out : List α} :
    sliceTo l n = .ok out ↔ n ≤ l.length ∧ out = l.take n := by
  simp only [sliceTo]
  split
  · rename_i h
    constructor
    · intro hh
      exact ⟨h, by cases hh; rfl⟩
    · intro ⟨_, rfl⟩; rfl
  · rename_i h
    constructor
    · intro hh; exact absurd hh (by simp)
    · intro ⟨hn, _⟩; exact absurd hn h

/-- `findSubIdx` hits exactly the leftmost occurrence. -/
theorem findSubIdx_eq_some_iff {p : List Nat} (hp : p ≠ []) (s : List Nat) (i : Nat) :
    findSubIdx p s = some i ↔
      ((s.drop i).take p.length = p ∧ ∀ j < i, (s.drop j).take p.length ≠ p) := by
  induction s generalizing i with
  | nil =>
    have hcond : ¬ (isPrefixL p [] = true) := by
      simp only [isPrefixL, List.take_nil, decide_eq_true_eq]
      exact fun h => hp h.symm
    simp only [findSubIdx]
    rw [if_neg hcond]
    constructor
    · intro h; exact absurd h (by simp)
    · intro ⟨hocc, _⟩
      exfalso
      simp only [List.drop_nil, List.take_nil] at hocc
      exact hp hocc.symm
  | cons c r ih =>
    by_cases hpre : isPrefixL p (c :: r) = true
    · simp only [findSubIdx, hpre, if_true]
      have hocc0 : ((c :: r).drop 0).take p.length = p := by
        simpa [isPrefixL, decide_eq_true_eq] using hpre
      constructor
      · intro h
        have hi : i = 0 := by
          have := Option.some.inj h
          omega
        subst hi
        exact ⟨hocc0, fun j hj => by omega⟩
      · intro ⟨hocc, hmin⟩
        match i with
        | 0 => rfl
        | j + 1 => exact absurd hocc0 (hmin 0 (by omega))
    · simp only [findSubIdx, hpre, Bool.false_eq_true, if_false]
      have hnot0 : ¬ ((c :: r).drop 0).take p.length = p := by
        intro hh
        exact hpre (by simpa [isPrefixL, decide_eq_true_eq] using hh)
      constructor
      · intro h
        rcases Option.map_eq_some'.mp h with ⟨i', hi', rfl⟩
        have hr := (ih i').mp hi'
        refine ⟨by simpa using hr.1, ?_⟩
        intro j hj
        match j with
        | 0 => exact hnot0
        | j' + 1 =>
          have := hr.2 j' (by omega)
          simpa using this
      · intro ⟨hocc, hmin⟩
        match i with
        | 0 => exact absurd (by simpa using hocc) hnot0
        | i' + 1 =>
          have hih : findSubIdx p r = some i' := (ih i').mpr
            ⟨by simpa using hocc, fun j hj => by simpa using hmin (j + 1) (by omega)⟩
          simp [hih]

theorem mem_of_mem_take_drop {x : Nat} {s : List Nat} {i n : Nat}
    (h : x ∈ (s.drop i).take n) : x ∈ s :=
  List.drop_subset i s (List.take_subset n _ h)

theorem head?_eq_of_take_eq_cons {X : List Nat} {n a : Nat} {ys : List Nat}
    (h : X.take n = a :: ys) : X.head? = some a := by
  match X, n with
  | [], _ => simp at h
  | x :: X', 0 => simp at h
  | x :: X', n + 1 =>
    simp only [List.take_succ_cons] at h
    injection h with h1 _
    simp [h1]

/-- A two-byte pattern cannot occur in a text missing its first byte. -/
theorem findSubIdx2_none_of_not_mem {a b : Nat} {xs : List Nat}
    (h : ∀ c ∈ xs, c ≠ a) : findSubIdx [a, b] xs = none := by
  rw [findSubIdx_eq_none_iff (by simp)]
  intro i hocc
  have ha : a ∈ (xs.drop i).take ([a, b] : List Nat).length := by rw [hocc]; simp
  exact h a (mem_of_mem_take_drop ha) rfl

theorem findSubIdx1_none_of_not_mem {a : Nat} {xs : List Nat}
    (h : ∀ c ∈ xs, c ≠ a) : findSubIdx [a] xs = none := by
  rw [findSubIdx_eq_none_iff (by simp)]
  intro i hocc
  have ha : a ∈ (xs.drop i).take ([a] : List Nat).length := by rw [hocc]; simp
  exact h a (mem_of_mem_take_drop ha) rfl

/-- Pasting a two-byte delimiter with distinct bytes after a
delimiter-free text puts its leftmost occurrence exactly there. -/
theorem findSubIdx2_append {a b : Nat} (hab : a ≠ b) {xs : List Nat}
    (hxs : findSubIdx [a, b] xs = none) (rest : List Nat) :
    findSubIdx [a, b] (xs ++ [a, b] ++ rest) = some xs.length := by
  rw [findSubIdx_eq_some_iff (by simp)]
  constructor
  · rw [List.append_assoc, List.drop_left]
    simp
  · intro j hj
    rw [List.append_assoc, List.drop_append_eq_append_drop]
    have hj0 : j - xs.length = 0 := by omega
    rw [hj0, List.drop_zero, List.take_append_eq_append_take]
    have hdj : (xs.drop j).length = xs.length - j := List.length_drop ..
    by_cases h2 : 2 ≤ xs.length - j
    · have hz : (([a, b] : List Nat).length - (xs.drop j).length) = 0 := by
        simp only [List.length_cons, List.length_nil]
        omega
      rw [hz, List.take_zero, List.append_nil]
      have := (findSubIdx_eq_none_iff (p := [a, b]) (by simp) xs).mp hxs j
      simpa using this
    · have h1 : (xs.drop j).length = 1 := by omega
      obtain ⟨u, hu⟩ := List.length_eq_one.mp h1
      rw [hu]
      intro hcontra
      simp at hcontra
      exact hab hcontra.2

/-- Same for a one-byte delimiter absent from the text. -/
theorem findSubIdx1_append {a : Nat} {xs : List Nat}
    (hxs : ∀ c ∈ xs, c ≠ a) (rest : List Nat) :
    findSubIdx [a] (xs ++ [a] ++ rest) = some xs.length := by
  rw [findSubIdx_eq_some_iff (by simp)]
  constructor
  · rw [List.append_assoc, List.drop_left]
    simp
  · intro j hj
    rw [List.append_assoc, List.drop_append_eq_append_drop]
    have hj0 : j - xs.length = 0 := by omega
    rw [hj0, List.drop_zero, List.take_append_eq_append_take]
    intro hcontra
    have hdj : (xs.drop j).length = xs.length - j := List.length_drop ..
    have hne : xs.drop j ≠ [] := by
      intro hh
      rw [hh] at hdj
      simp at hdj
      omega
    obtain ⟨u, tl, hu⟩ := List.exists_cons_of_ne_nil hne
    rw [hu] at hcontra
    simp only [List.length_cons, List.length_nil, List.take_cons, List.take_nil] at hcontra
    have := List.cons.inj hcontra
    have hua : u = a := this.1
    have : a ∈ xs := by
      have : u ∈ xs.drop j := by rw [hu]; simp
      rw [hua] at this
      exact List.drop_subset j xs this
    exact hxs a this rfl

/-- `split_once` at a pasted two-byte delimiter. -/
theorem splitOnceSub2_append {a b : Nat} (hab : a ≠ b) {xs : List Nat}
    (hxs : findSubIdx [a, b] xs = none) (rest : List Nat) :
    splitOnceSub [a, b] (xs ++ [a, b] ++ rest) = some (xs, rest) := by
  have h1 : (xs ++ [a, b] ++ rest).take xs.length = xs := by
    rw [List.append_assoc, List.take_left]
  have h2 : (xs ++ [a, b] ++ rest).drop (xs.length + 2) = rest := by
    rw [List.append_assoc, List.drop_append_eq_append_drop]
    simp
  simp only [splitOnceSub, findSubIdx2_append hab hxs rest, Option.map_some']
  rw [show (([a, b] : List Nat).length) = 2 from rfl, h1, h2]

/-- `split_once` at a pasted one-byte delimiter. -/
theorem splitOnceSub1_append {a : Nat} {xs : List Nat}
    (hxs : ∀ c ∈ xs, c ≠ a) (rest : List Nat) :
    splitOnceSub [a] (xs ++ [a] ++ rest) = some (xs, rest) := by
  have h1 : (xs ++ [a] ++ rest).take xs.length = xs := by
    rw [List.append_assoc, List.take_left]
  have h2 : (xs ++ [a] ++ rest).drop (xs.length + 1) = rest := by
    rw [List.append_assoc, List.drop_append_eq_append_drop]
    simp
  simp only [splitOnceSub, findSubIdx1_append hxs rest, Option.map_some']
  rw [show (([a] : List Nat).length) = 1 from rfl, h1, h2]

theorem crlfJoin_nil (first : Str) : crlfJoin first [] = first := by
  simp [crlfJoin]

theorem crlfJoin_cons (first l : Str) (rest : List Str) :
    crlfJoin first (l :: rest) = first ++ [13, 10] ++ crlfJoin l rest := by
  simp [crlfJoin, List.append_assoc]

theorem crlfJoin_ne_nil (first : Str) (hf : first ≠ []) (lines : List Str) :
    crlfJoin first lines ≠ [] := by
  simp only [crlfJoin]
  intro h
  rw [List.append_eq_nil] at h
  exact hf h.1

theorem crlfJoin_head? (first : Str) (hf : first ≠ []) (lines : List Str) :
    (crlfJoin first lines).head? = first.head? :=
  List.head?_append_of_ne_nil first hf

theorem mem_crlfJoin {c : Nat} {first : Str} {lines : List Str}
    (h : c ∈ crlfJoin first lines) :
    c ∈ first ∨ c = 13 ∨ c = 10 ∨ ∃ l ∈ lines, c ∈ l := by
  simp only [crlfJoin, List.mem_append, List.mem_flatten] at h
  rcases h with h | ⟨seg, hseg, hc⟩
  · exact .inl h
  · rw [List.mem_map] at hseg
    obtain ⟨l, hl, rfl⟩ := hseg
    simp only [List.mem_append, List.mem_cons, List.not_mem_nil, or_false] at hc
    rcases hc with (hc | hc) | hc
    · exact .inr (.inl hc)
    · exact .inr (.inr (.inl hc))
    · exact .inr (.inr (.inr ⟨l, hl, hc⟩))

theorem crlfJoin_getLast? (first : Str) (lines : List Str)
    (hne : ∀ l ∈ lines, l ≠ []) :
    (crlfJoin first lines).getLast? = (lines.getLast?.getD first).getLast? := by
  induction lines generalizing first with
  | nil => rw [crlfJoin_nil]; rfl
  | cons l rest ih =>
    rw [crlfJoin_cons]
    have hlne : l ≠ [] := hne l (by simp)
    have hjne : crlfJoin l rest ≠ [] := crlfJoin_ne_nil l hlne rest
    rw [List.append_assoc,
      List.getLast?_append_of_ne_nil first (by simp [hjne]),
      List.getLast?_append_of_ne_nil [13, 10] hjne,
      ih l (fun x hx => hne x (by simp [hx]))]
    cases rest with
    | nil => rfl
    | cons r1 r' =>
      have h1 : (l :: r1 :: r').getLast? = (r1 :: r').getLast? := by
        rw [show (l :: r1 :: r') = [l] ++ (r1 :: r') from rfl]
        exact List.getLast?_append_of_ne_nil [l] (by simp)
      rw [h1]
      match hgl : (r1 :: r').getLast? with
      | some w => simp
      | none => exact absurd (List.getLast?_eq_none_iff.mp hgl) (by simp)

theorem head?_drop_mem {s : List Nat} {i : Nat} (h : i < s.length) :
    ∃ c ∈ s, (s.drop i).head? = some c := by
  have hlen : (s.drop i).length = s.length - i := List.length_drop ..
  have hne : s.drop i ≠ [] := by
    intro hh
    rw [hh] at hlen
    simp at hlen
    omega
  obtain ⟨c, tl, hc⟩ := List.exists_cons_of_ne_nil hne
  refine ⟨c, ?_, by rw [hc]; rfl⟩
  have : c ∈ s.drop i := by rw [hc]; simp
  exact List.drop_subset i s this

/-- The header region the serializer produces — non-empty CR/LF-free
components interleaved with `"\r\n"` — holds no `"\r\n\r\n"` window. -/
theorem crlfJoin_take4_ne {first : Str} {lines : List Str}
    (hf : first ≠ [] ∧ ∀ c ∈ first, c ≠ 13 ∧ c ≠ 10)
    (hl : ∀ l ∈ lines, l ≠ [] ∧ ∀ c ∈ l, c ≠ 13 ∧ c ≠ 10) :
    ∀ i, ((crlfJoin first lines).drop i).take 4 ≠ [13, 10, 13, 10] := by
  induction lines generalizing first with
  | nil =>
    intro i hocc
    rw [crlfJoin_nil] at hocc
    have h13 : (13 : Nat) ∈ (first.drop i).take 4 := by rw [hocc]; simp
    exact (hf.2 13 (mem_of_mem_take_drop h13)).1 rfl
  | cons l rest ih =>
    intro i hocc
    rw [crlfJoin_cons, List.append_assoc] at hocc
    have hlprops := hl l (by simp)
    have hjne : crlfJoin l rest ≠ [] := crlfJoin_ne_nil l hlprops.1 rest
    by_cases hlt : i < first.length
    · have hsplit : (first ++ ([13, 10] ++ crlfJoin l rest)).drop i =
          first.drop i ++ ([13, 10] ++ crlfJoin l rest) := by
        rw [List.drop_append_eq_append_drop]
        have h0 : i - first.length = 0 := by omega
        rw [h0, List.drop_zero]
      rw [hsplit] at hocc
      obtain ⟨c, hcmem, hchead⟩ := head?_drop_mem hlt
      have hdne : first.drop i ≠ [] := by
        intro hh
        rw [hh] at hchead
        exact absurd hchead (by simp)
      have hh : (first.drop i ++ ([13, 10] ++ crlfJoin l rest)).head? = some c := by
        rw [List.head?_append_of_ne_nil _ hdne]
        exact hchead
      have hh13 := head?_eq_of_take_eq_cons hocc
      rw [hh] at hh13
      have : c = 13 := by injection hh13
      exact (hf.2 c hcmem).1 this
    · have hsplit : (first ++ ([13, 10] ++ crlfJoin l rest)).drop i =
          ([13, 10] ++ crlfJoin l rest).drop (i - first.length) := by
        rw [List.drop_append_eq_append_drop, List.drop_eq_nil_of_le (by omega),
          List.nil_append]
      rw [hsplit] at hocc
      match hj : i - first.length, hocc with
      | 0, hocc =>
        simp only [List.drop_zero, List.cons_append, List.nil_append,
          List.take_succ_cons] at hocc
        have htail : (crlfJoin l rest).take 2 = [13, 10] := by
          have := List.cons.inj hocc
          have := List.cons.inj this.2
          exact this.2
        have hhead := head?_eq_of_take_eq_cons htail
        rw [crlfJoin_head? l hlprops.1 rest] at hhead
        obtain ⟨c, hcm, hch⟩ := head?_drop_mem (s := l) (i := 0)
          (List.length_pos.mpr hlprops.1)
        rw [List.drop_zero] at hch
        rw [hch] at hhead
        have : c = 13 := by injection hhead
        exact (hlprops.2 c hcm).1 this
      | 1, hocc =>
        simp only [List.cons_append, List.nil_append, List.drop_succ_cons,
          List.drop_zero, List.take_succ_cons] at hocc
        have := (List.cons.inj hocc).1
        omega
      | j' + 2, hocc =>
        have hstep : ([13, 10] ++ crlfJoin l rest).drop (j' + 2) =
            (crlfJoin l rest).drop j' := by
          simp
        rw [hstep] at hocc
        exact ih hlprops (fun x hx => hl x (by simp [hx])) j' hocc

/-- Locating the `"\r\n\r\n"` boundary in a serialized message: it sits
exactly at the end of the header region. -/
theorem findBoundaryMid_serialized (first : Str) (lines : List Str) (body : List Nat)
    (hf : first ≠ [] ∧ ∀ c ∈ first, c ≠ 13 ∧ c ≠ 10)
    (hl : ∀ l ∈ lines, l ≠ [] ∧ ∀ c ∈ l, c ≠ 13 ∧ c ≠ 10) :
    findBoundaryMid (crlfJoin first lines ++ [13, 10, 13, 10] ++ body) =
      some ((crlfJoin first lines).length + 4) := by
  have hfs : findSubIdx [13, 10, 13, 10]
      (crlfJoin first lines ++ [13, 10, 13, 10] ++ body) =
      some (crlfJoin first lines).length := by
    rw [findSubIdx_eq_some_iff (by simp)]
    constructor
    · rw [List.append_assoc, List.drop_left]
      simp
    · intro j hj
      rw [List.append_assoc, List.drop_append_eq_append_drop]
      have h0 : j - (crlfJoin first lines).length = 0 := by omega
      rw [h0, List.drop_zero, List.take_append_eq_append_take]
      set J := crlfJoin first lines with hJ
      have hdj : (J.drop j).length = J.length - j := List.length_drop ..
      intro hcontra
      by_cases h4 : 4 ≤ J.length - j
      · have hz : (([13, 10, 13, 10] : List Nat).length - (J.drop j).length) = 0 := by
          simp only [List.length_cons, List.length_nil]
          omega
        rw [hz, List.take_zero, List.append_nil] at hcontra
        exact crlfJoin_take4_ne hf hl j (by simpa using hcontra)
      · -- a window that straddles the pasted boundary; the suffix of the
        -- header region then has length 1, 2 or 3
        have hlen1 : (J.drop j).take 4 = J.drop j := by
          apply List.take_of_length_le
          omega
        rw [show (([13, 10, 13, 10] : List Nat).length) = 4 from rfl, hlen1] at hcontra
        -- last components are CR/LF-free, so the suffix cannot be [13,10]-shaped
        have hlast : (J.drop j).getLast? = J.getLast? := by
          conv_rhs => rw [← List.take_append_drop j J]
          rw [List.getLast?_append_of_ne_nil _ (by
            intro hh
            rw [hh] at hdj
            simp at hdj
            omega)]
        have hJlast : ∀ x, J.getLast? = some x → x ≠ 13 ∧ x ≠ 10 := by
          intro x hx
          rw [hJ, crlfJoin_getLast? first lines (fun l h => (hl l h).1)] at hx
          match hlw : lines.getLast? with
          | none =>
            rw [hlw] at hx
            simp only [Option.getD_none] at hx
            exact hf.2 x (List.mem_of_getLast?_eq_some hx)
          | some lw =>
            rw [hlw] at hx
            simp only [Option.getD_some] at hx
            have hmem : lw ∈ lines := List.mem_of_getLast?_eq_some hlw
            exact (hl lw hmem).2 x (List.mem_of_getLast?_eq_some hx)
        -- the straddling suffix of the header region is a prefix of the
        -- boundary, so its last byte is 13 or 10 — impossible
        have htake : J.drop j = ([13, 10, 13, 10] : List Nat).take (J.length - j) := by
          have hc := congrArg (fun t => List.take (J.length - j) t) hcontra
          simp only [] at hc
          rw [List.take_append_of_le_length (by omega)] at hc
          rw [show J.length - j = (J.drop j).length from hdj.symm, List.take_length] at hc
          rw [hdj] at hc
          exact hc
        have hglast : J.getLast? = (([13, 10, 13, 10] : List Nat).take (J.length - j)).getLast? := by
          rw [← hlast, htake]
        have hd3 : J.length - j = 1 ∨ J.length - j = 2 ∨ J.length - j = 3 := by omega
        rcases hd3 with hd | hd | hd
        · rw [hd, show (([13, 10, 13, 10] : List Nat).take 1).getLast? = some 13 from rfl]
            at hglast
          exact (hJlast 13 hglast).1 rfl
        · rw [hd, show (([13, 10, 13, 10] : List Nat).take 2).getLast? = some 10 from rfl]
            at hglast
          exact (hJlast 10 hglast).2 rfl
        · rw [hd, show (([13, 10, 13, 10] : List Nat).take 3).getLast? = some 13 from rfl]
            at hglast
          exact (hJlast 13 hglast).1 rfl
  simp only [findBoundaryMid]
  rw [hfs]
  rfl

/-! ### Trim, whitespace-splitting and decimal lemmas -/

theorem trimLeftW_of_head (s : List Nat)
    (h : ∀ c, s.head? = some c → isWsChar c = false) : trimLeftW s = s := by
  match s with
  | [] => rfl
  | c :: r =>
    have hc := h c rfl
    simp [trimLeftW, hc]

theorem trimLeftW_append_ws (u v : List Nat) (hu : ∀ c ∈ u, isWsChar c = true) :
    trimLeftW (u ++ v) = trimLeftW v := by
  induction u with
  | nil => rfl
  | cons c r ih =>
    rw [List.cons_append]
    show trimLeftW (c :: (r ++ v)) = trimLeftW v
    simp only [trimLeftW]
    rw [if_pos (hu c (by simp))]
    exact ih (fun x hx => hu x (by simp [hx]))

theorem trimRightW_append_ws (s t : List Nat) (ht : ∀ c ∈ t, isWsChar c = true)
    (hs : ∀ c, s.getLast? = some c → isWsChar c = false) :
    trimRightW (s ++ t) = s := by
  simp only [trimRightW]
  rw [List.reverse_append, trimLeftW_append_ws _ _ (fun c hc => ht c (by simpa using hc))]
  rw [trimLeftW_of_head]
  · exact List.reverse_reverse s
  · intro c hc
    rw [List.head?_reverse] at hc
    exact hs c hc

theorem trimW_append_ws (s t : List Nat) (hsne : s ≠ [])
    (hhead : ∀ c, s.head? = some c → isWsChar c = false)
    (hlast : ∀ c, s.getLast? = some c → isWsChar c = false)
    (ht : ∀ c ∈ t, isWsChar c = true) :
    trimW (s ++ t) = s := by
  simp only [trimW]
  rw [trimLeftW_of_head (s ++ t) (by
    intro c hc
    rw [List.head?_append_of_ne_nil s hsne] at hc
    exact hhead c hc)]
  exact trimRightW_append_ws s t ht hlast

theorem splitOnSub_crlfJoin (l : Str) (rest : List Str)
    (hl : ∀ x ∈ l :: rest, x ≠ [] ∧ ∀ c ∈ x, c ≠ 13 ∧ c ≠ 10) :
    splitOnSub [13, 10] (crlfJoin l rest) = l :: rest := by
  induction rest generalizing l with
  | nil =>
    rw [crlfJoin_nil, splitOnSub_eq (by simp)]
    rw [findSubIdx2_none_of_not_mem (fun c hc => ((hl l (by simp)).2 c hc).1)]
  | cons l2 rest' ih =>
    have heq := splitOnSub_eq (p := [13, 10]) (by simp)
      (l ++ [13, 10] ++ crlfJoin l2 rest')
    rw [findSubIdx2_append (by omega)
      (findSubIdx2_none_of_not_mem (fun c hc => ((hl l (by simp)).2 c hc).1)) _] at heq
    simp only [] at heq
    rw [crlfJoin_cons, heq]
    have htake : (l ++ [13, 10] ++ crlfJoin l2 rest').take l.length = l := by
      rw [List.append_assoc, List.take_left]
    have hdrop : (l ++ [13, 10] ++ crlfJoin l2 rest').drop
        (l.length + ([13, 10] : List Nat).length) = crlfJoin l2 rest' := by
      rw [List.append_assoc, List.drop_append_eq_append_drop]
      simp
    rw [htake, hdrop]
    rw [ih l2 (fun x hx => hl x (by simp [hx]))]

theorem takeWhile_append_of_all {p : Nat → Bool} {u : List Nat}
    (hu : ∀ c ∈ u, p c = true) (v : List Nat) :
    (u ++ v).takeWhile p = u ++ v.takeWhile p := by
  induction u with
  | nil => rfl
  | cons c r ih =>
    rw [List.cons_append]
    simp only [List.takeWhile_cons, hu c (by simp), if_true]
    rw [ih (fun x hx => hu x (by simp [hx]))]
    rfl

theorem dropWhile_append_of_all {p : Nat → Bool} {u : List Nat}
    (hu : ∀ c ∈ u, p c = true) (v : List Nat) :
    (u ++ v).dropWhile p = v.dropWhile p := by
  induction u with
  | nil => rfl
  | cons c r ih =>
    rw [List.cons_append]
    simp only [List.dropWhile_cons, hu c (by simp), if_true]
    exact ih (fun x hx => hu x (by simp [hx]))

theorem splitWs_token_append (t : Str) (ht : tokenSafe t) (rest : List Nat) :
    splitWs (t ++ [0x20] ++ rest) = t :: splitWs rest := by
  obtain ⟨c, t', rfl⟩ := List.exists_cons_of_ne_nil ht.1
  rw [List.cons_append, List.cons_append, splitWs_cons]
  rw [if_neg (by simp [(ht.2 c (by simp)).2])]
  have hall : ∀ d ∈ t', (fun d => !isWsChar d) d = true := by
    intro d hd
    simp [(ht.2 d (by simp [hd])).2]
  have h32 : (!isWsChar 0x20) = false := by decide
  congr 1
  · rw [List.append_assoc, takeWhile_append_of_all hall]
    simp only [List.cons_append, List.nil_append, List.takeWhile_cons, h32,
      Bool.false_eq_true, if_false]
    simp
  · rw [List.append_assoc, dropWhile_append_of_all hall]
    simp only [List.cons_append, List.nil_append, List.dropWhile_cons, h32,
      Bool.false_eq_true, if_false]
    rw [splitWs_cons, if_pos (by decide)]

theorem splitWs_single (t : Str) (ht : tokenSafe t) : splitWs t = [t] := by
  obtain ⟨c, t', rfl⟩ := List.exists_cons_of_ne_nil ht.1
  rw [splitWs_cons]
  rw [if_neg (by simp [(ht.2 c (by simp)).2])]
  have hall : ∀ d ∈ t', (fun d => !isWsChar d) d = true := by
    intro d hd
    simp [(ht.2 d (by simp [hd])).2]
  have htake : t'.takeWhile (fun d => !isWsChar d) = t' := by
    have := takeWhile_append_of_all hall []
    simpa using this
  have hdrop : t'.dropWhile (fun d => !isWsChar d) = [] := by
    have := dropWhile_append_of_all hall []
    simpa using this
  rw [htake, hdrop]
  rfl

theorem natToStrRev_all_digits :
    ∀ n, ∀ c ∈ natToStrRev n, 0x30 ≤ c ∧ c ≤ 0x39 := by
  intro n
  induction n using Nat.strong_induction_on with
  | _ n ih =>
    match n with
    | 0 => intro c hc; simp [natToStrRev, natToStrRevF] at hc
    | m + 1 =>
      rw [natToStrRev_succ]
      intro c hc
      rcases List.mem_cons.mp hc with rfl | hc
      · constructor <;> omega
      · exact ih ((m + 1) / 10) (Nat.div_lt_self (by omega) (by omega)) c hc

theorem digitsVal_append_single (xs : List Nat) (d : Nat) :
    digitsVal (xs ++ [d]) = 10 * digitsVal xs + (d - 0x30) := by
  simp [digitsVal, List.foldl_append]

theorem digitsVal_natToStrRev_reverse : ∀ n, digitsVal (natToStrRev n).reverse = n := by
  intro n
  induction n using Nat.strong_induction_on with
  | _ n ih =>
    match n with
    | 0 => rfl
    | m + 1 =>
      rw [natToStrRev_succ, List.reverse_cons, digitsVal_append_single,
        ih ((m + 1) / 10) (Nat.div_lt_self (by omega) (by omega))]
      omega

theorem natToStrRev_ne_nil {n : Nat} (h : 0 < n) : natToStrRev n ≠ [] := by
  match n, h with
  | m + 1, _ =>
    rw [natToStrRev_succ]
    simp

/-- The decimal rendering of a 64-bit length parses back to the length. -/
theorem parseUsize?_natToStr (n : Nat) (h : n < 2 ^ 64) :
    parseUsize? (natToStr n) = some n := by
  by_cases h0 : n = 0
  · subst h0
    decide
  · have hne : (natToStrRev n).reverse ≠ [] := by
      simp only [ne_eq, List.reverse_eq_nil_iff]
      exact natToStrRev_ne_nil (by omega)
    obtain ⟨c, r, hcr⟩ := List.exists_cons_of_ne_nil hne
    have hdigits : ∀ x ∈ (natToStrRev n).reverse, 0x30 ≤ x ∧ x ≤ 0x39 := by
      intro x hx
      exact natToStrRev_all_digits n x (by simpa using hx)
    have hc : 0x30 ≤ c ∧ c ≤ 0x39 := hdigits c (by rw [hcr]; simp)
    have hval : digitsVal (natToStrRev n).reverse = n := digitsVal_natToStrRev_reverse n
    have hall : (natToStrRev n).reverse.all isDigitChar = true := by
      rw [List.all_eq_true]
      intro x hx
      have := hdigits x hx
      simp only [isDigitChar, Bool.and_eq_true, decide_eq_true_eq]
      omega
    simp only [natToStr, if_neg h0, parseUsize?]
    rw [hcr]
    simp only []
    rw [if_neg (show ¬ c = 0x2B by omega)]
    rw [← hcr]
    rw [if_pos ⟨hne, hall, by rw [hval]; exact h⟩, hval]

theorem utf8Encode_ascii (s : Str) (h : ∀ c ∈ s, c < 0x80) : utf8Encode s = s := by
  induction s with
  | nil => rfl
  | cons c r ih =>
    simp only [utf8Encode, List.map_cons, List.flatten_cons]
    rw [show utf8EncodeChar c = [c] from by
      unfold utf8EncodeChar
      rw [if_pos (h c (by simp))]]
    have := ih (fun x hx => h x (by simp [hx]))
    simp only [utf8Encode] at this
    rw [this]
    rfl

theorem utf8Step_ascii (c : Nat) (r : List Nat) (h : c < 0x80) :
    utf8Step (c :: r) = some (c, r) := by
  simp only [utf8Step]
  rw [if_pos h]

theorem utf8Decode?_ascii (s : List Nat) (h : ∀ c ∈ s, c < 0x80) :
    utf8Decode? s = some s := by
  induction s with
  | nil => rfl
  | cons c r ih =>
    show utf8DecodeF (r.length + 1) (c :: r) = some (c :: r)
    simp only [utf8DecodeF, utf8Step_ascii c r (h c (by simp))]
    have hr : utf8DecodeF r.length r = some r := ih (fun x hx => h x (by simp [hx]))
    rw [hr]
    rfl

/-! ### HashMap-model algebra -/

theorem hmInsert_eq_append {m : HMap} {k : Str} (v : Str) (h : k ∉ m.map Prod.fst) :
    hmInsert m k v = m ++ [(k, v)] := by
  simp only [hmInsert]
  rw [if_neg]
  intro hany
  rw [List.any_eq_true] at hany
  obtain ⟨p, hp, hpk⟩ := hany
  simp only [decide_eq_true_eq] at hpk
  exact h (by rw [← hpk]; exact List.mem_map_of_mem Prod.fst hp)

theorem foldl_hmInsert_append (pairs : List (Str × Str)) :
    ∀ acc : HMap, (pairs.map Prod.fst).Nodup →
    (∀ k ∈ pairs.map Prod.fst, k ∉ acc.map Prod.fst) →
    pairs.foldl (fun m kv => hmInsert m kv.1 kv.2) acc = acc ++ pairs := by
  induction pairs with
  | nil => intro acc _ _; simp
  | cons kv rest ih =>
    intro acc hnd hdisj
    simp only [List.foldl_cons]
    rw [hmInsert_eq_append kv.2 (hdisj kv.1 (by simp))]
    rw [List.map_cons] at hnd
    have hnd' := List.nodup_cons.mp hnd
    rw [ih (acc ++ [kv]) hnd'.2 ?_]
    · simp
    · intro x hx
      rw [List.map_append, List.mem_append]
      rintro (hxa | hxk)
      · exact hdisj x (by simp [hx]) hxa
      · simp only [List.map_cons, List.map_nil, List.mem_cons, List.not_mem_nil,
          or_false] at hxk
        rw [hxk] at hx
        exact hnd'.1 hx

theorem collectHeaders_map_headerLine (pairs : List (Str × Str)) :
    ∀ acc : HMap, (∀ kv ∈ pairs, findSubIdx [0x3A, 0x20] kv.1 = none) →
    collectHeaders (pairs.map headerLine) acc =
      .ok (pairs.foldl (fun m kv => hmInsert m kv.1 kv.2) acc) := by
  induction pairs with
  | nil => intro acc _; rfl
  | cons kv rest ih =>
    intro acc hk
    simp only [List.map_cons, collectHeaders]
    rw [show strOf ": " = [0x3A, 0x20] from rfl]
    rw [show headerLine kv = kv.1 ++ [0x3A, 0x20] ++ kv.2 from rfl]
    rw [splitOnceSub2_append (by omega) (hk kv (by simp)) kv.2]
    exact ih _ (fun x hx => hk x (by simp [hx]))

theorem hmGet_of_mem_nodup {m : HMap} (hnd : (m.map Prod.fst).Nodup)
    {k v : Str} (hmem : (k, v) ∈ m) : hmGet m k = some v := by
  induction m with
  | nil => simp at hmem
  | cons p rest ih =>
    rw [List.map_cons] at hnd
    have hnd' := List.nodup_cons.mp hnd
    rcases List.mem_cons.mp hmem with heq | hmem'
    · rw [← heq]
      simp only [hmGet]
      rw [List.find?_cons_of_pos _ (by simp)]
      rfl
    · have hk_ne : p.1 ≠ k := by
        intro hpk
        have h2 : k ∈ rest.map Prod.fst := by
          rw [List.mem_map]
          exact ⟨(k, v), hmem', rfl⟩
        rw [hpk] at hnd'
        exact hnd'.1 h2
      simp only [hmGet] at ih ⊢
      rw [List.find?_cons_of_neg _ (by simpa using hk_ne)]
      exact ih hnd'.2 hmem'

theorem hmGet_none_of_not_mem {m : HMap} {k : Str} (h : k ∉ m.map Prod.fst) :
    hmGet m k = none := by
  simp only [hmGet, Option.map_eq_none']
  rw [List.find?_eq_none]
  intro p hp
  simp only [decide_eq_true_eq]
  intro hpk
  exact h (by rw [← hpk]; exact List.mem_map_of_mem Prod.fst hp)

theorem mem_hmInsert {m : HMap} {k v : Str} {kv : Str × Str} (h : kv ∈ hmInsert m k v) :
    kv = (k, v) ∨ (kv ∈ m ∧ kv.1 ≠ k) := by
  simp only [hmInsert] at h
  split at h
  · rw [List.mem_map] at h
    obtain ⟨p, hp, hpe⟩ := h
    by_cases hpk : p.1 = k
    · rw [if_pos hpk] at hpe
      exact .inl hpe.symm
    · rw [if_neg hpk] at hpe
      exact .inr ⟨hpe ▸ hp, hpe ▸ hpk⟩
  · rename_i hany
    rw [List.mem_append] at h
    rcases h with h | h
    · refine .inr ⟨h, ?_⟩
      intro hk1
      apply hany
      rw [List.any_eq_true]
      exact ⟨kv, h, by simp [hk1]⟩
    · simp only [List.mem_cons, List.not_mem_nil, or_false] at h
      exact .inl h

theorem nodup_hmInsert {m : HMap} (hnd : (m.map Prod.fst).Nodup) (k v : Str) :
    ((hmInsert m k v).map Prod.fst).Nodup := by
  simp only [hmInsert]
  split
  · have hmap : (m.map (fun p => if p.1 = k then (k, v) else p)).map Prod.fst =
        m.map Prod.fst := by
      rw [List.map_map]
      apply List.map_congr_left
      intro p _
      by_cases hpk : p.1 = k
      · simp [hpk]
      · simp [hpk]
    rw [hmap]
    exact hnd
  · rename_i hany
    rw [List.map_append, List.nodup_append]
    refine ⟨hnd, by simp, ?_⟩
    intro a ha hb
    simp only [List.map_cons, List.map_nil, List.mem_cons, List.not_mem_nil,
      or_false] at hb
    apply hany
    rw [List.any_eq_true]
    rw [List.mem_map] at ha
    obtain ⟨p, hp, rfl⟩ := ha
    exact ⟨p, hp, by simp [hb]⟩

theorem mem_hmRemove {m : HMap} {k : Str} {kv : Str × Str}
    (h : kv ∈ hmRemove m k) : kv ∈ m ∧ kv.1 ≠ k := by
  simp only [hmRemove] at h
  refine ⟨List.mem_of_mem_filter h, ?_⟩
  have h2 := List.of_mem_filter h
  simpa using h2

theorem nodup_hmRemove {m : HMap} (hnd : (m.map Prod.fst).Nodup) (k : Str) :
    ((hmRemove m k).map Prod.fst).Nodup :=
  List.Nodup.sublist ((List.filter_sublist ..).map Prod.fst) hnd

theorem hmRemove_not_mem {m : HMap} (k : Str) :
    k ∉ (hmRemove m k).map Prod.fst := by
  intro hk
  rw [List.mem_map] at hk
  obtain ⟨p, hp, hpe⟩ := hk
  exact (mem_hmRemove hp).2 hpe

theorem isWsChar_digit_false {c : Nat} (h1 : 0x30 ≤ c) (h2 : c ≤ 0x39) :
    isWsChar c = false := by
  simp only [isWsChar, Bool.or_eq_false_iff, decide_eq_false_iff_not,
    Bool.and_eq_false_iff]
  omega

theorem valSafe_natToStr (n : Nat) : valSafe (natToStr n) := by
  by_cases h0 : n = 0
  · subst h0
    decide
  · have hdig : ∀ c ∈ natToStr n, 0x30 ≤ c ∧ c ≤ 0x39 := by
      intro c hc
      simp only [natToStr, if_neg h0, List.mem_reverse] at hc
      exact natToStrRev_all_digits n c hc
    have hne : natToStr n ≠ [] := by
      simp only [natToStr, if_neg h0, ne_eq, List.reverse_eq_nil_iff]
      exact natToStrRev_ne_nil (by omega)
    refine ⟨hne, ?_, ?_⟩
    · intro c hc
      have := hdig c hc
      exact ⟨by omega, by omega, by omega⟩
    · match hgl : (natToStr n).getLast? with
      | none => exact absurd (List.getLast?_eq_none_iff.mp hgl) hne
      | some d =>
        have hd := hdig d (List.mem_of_getLast?_eq_some hgl)
        simp only [Option.all_some]
        rw [isWsChar_digit_false hd.1 hd.2]
        rfl

/-! ### Vocabulary string facts and header-line shape -/

theorem method_str_props (m : Method) :
    tokenSafe (Method.to_static_str m) ∧
    ∀ c ∈ Method.to_static_str m, c ≠ 13 ∧ c ≠ 10 := by
  cases m <;> exact (by decide)

theorem version_str_props (v : Version) :
    tokenSafe (Version.to_static v) ∧
    (∀ c ∈ Version.to_static v, c ≠ 13 ∧ c ≠ 10) ∧
    (∀ c ∈ Version.to_static v, c ≠ 0x20) := by
  cases v <;> exact (by decide)

theorem method_from_str_roundtrip (m : Method) :
    Method.from_str (Method.to_static_str m) = .ok m := by
  cases m <;> decide

theorem version_from_str_roundtrip (v : Version) :
    Version.from_str (Version.to_static v) = .ok v := by
  cases v <;> decide

theorem status_str_props (s : Status) :
    Status.to_static_str s ≠ [] ∧
    (∀ c ∈ Status.to_static_str s, c < 0x80 ∧ c ≠ 13 ∧ c ≠ 10) ∧
    (Status.to_static_str s).head?.all (fun c => !isWsChar c) = true ∧
    (Status.to_static_str s).getLast?.all (fun c => !isWsChar c) = true := by
  cases s <;> exact (by decide)

theorem status_from_str_roundtrip (s : Status) (h : s ≠ .NotImplemented) :
    Status.from_str (Status.to_static_str s) = .ok s := by
  cases s <;> first | (exact absurd rfl h) | decide

theorem headerLine_ne_nil (kv : Str × Str) : headerLine kv ≠ [] := by
  simp [headerLine]

theorem mem_headerLine {c : Nat} {kv : Str × Str} (h : c ∈ headerLine kv) :
    c ∈ kv.1 ∨ c = 0x3A ∨ c = 0x20 ∨ c ∈ kv.2 := by
  simp only [headerLine, List.append_assoc, List.mem_append, List.mem_cons,
    List.not_mem_nil, or_false] at h
  tauto

theorem headerLine_no_crlf {kv : Str × Str}
    (hk : ∀ c ∈ kv.1, c ≠ 13 ∧ c ≠ 10) (hv : ∀ c ∈ kv.2, c ≠ 13 ∧ c ≠ 10) :
    ∀ c ∈ headerLine kv, c ≠ 13 ∧ c ≠ 10 := by
  intro c hc
  rcases mem_headerLine hc with h | h | h | h
  · exact hk c h
  · subst h; exact ⟨by omega, by omega⟩
  · subst h; exact ⟨by omega, by omega⟩
  · exact hv c h

theorem headerLine_ascii {kv : Str × Str}
    (hk : ∀ c ∈ kv.1, c < 0x80) (hv : ∀ c ∈ kv.2, c < 0x80) :
    ∀ c ∈ headerLine kv, c < 0x80 := by
  intro c hc
  rcases mem_headerLine hc with h | h | h | h
  · exact hk c h
  · omega
  · omega
  · exact hv c h

theorem headerLine_head?_not_ws {kv : Str × Str} (hk : keySafe kv.1) :
    (headerLine kv).head?.all (fun c => !isWsChar c) = true := by
  match hkv : kv.1 with
  | [] =>
    rw [show headerLine kv = kv.1 ++ [0x3A, 0x20] ++ kv.2 from rfl, hkv]
    rw [List.nil_append, List.head?_append_of_ne_nil [0x3A, 0x20] (by simp)]
    decide
  | c :: k' =>
    rw [show headerLine kv = kv.1 ++ [0x3A, 0x20] ++ kv.2 from rfl, hkv]
    rw [List.append_assoc, List.head?_append_of_ne_nil _ (by simp)]
    have := hk.2.2
    rw [hkv] at this
    exact this

theorem headerLine_getLast?_not_ws {kv : Str × Str} (hv : valSafe kv.2) :
    (headerLine kv).getLast?.all (fun c => !isWsChar c) = true := by
  rw [show headerLine kv = kv.1 ++ [0x3A, 0x20] ++ kv.2 from rfl]
  rw [List.append_assoc, List.getLast?_append_of_ne_nil _ (by
    intro hh
    rw [List.append_eq_nil] at hh
    exact hv.1 hh.2)]
  rw [List.getLast?_append_of_ne_nil _ hv.1]
  exact hv.2.2

/-- The serializer's output for a request, reshaped around `crlfJoin`. -/
theorem request_to_bytes_shape (r : Request)
    (huri : ∀ c ∈ r.uri, c < 0x80)
    (hhs : ∀ kv ∈ r.headers, (∀ c ∈ kv.1, c < 0x80) ∧ (∀ c ∈ kv.2, c < 0x80)) :
    Request.to_bytes r =
      crlfJoin (Method.to_static_str r.method ++ [0x20] ++ r.uri ++ [0x20] ++
        Version.to_static r.version) (r.headers.map headerLine) ++
      [13, 10, 13, 10] ++ r.body := by
  have hm : utf8Encode (Method.to_static_str r.method) = Method.to_static_str r.method :=
    utf8Encode_ascii _ (fun c hc => ((method_str_props r.method).1.2 c hc).1)
  have hv : utf8Encode (Version.to_static r.version) = Version.to_static r.version :=
    utf8Encode_ascii _ (fun c hc => ((version_str_props r.version).1.2 c hc).1)
  have hu : utf8Encode r.uri = r.uri := utf8Encode_ascii _ huri
  have hmap : r.headers.map (fun kv =>
      [13, 10] ++ (utf8Encode kv.1 ++ ([0x3A, 0x20] ++ utf8Encode kv.2))) =
      (r.headers.map headerLine).map (fun l => [13, 10] ++ l) := by
    rw [List.map_map]
    apply List.map_congr_left
    intro kv hkv
    have h1 := utf8Encode_ascii kv.1 (hhs kv hkv).1
    have h2 := utf8Encode_ascii kv.2 (hhs kv hkv).2
    simp only [Function.comp_apply, headerLine, h1, h2, List.append_assoc]
  simp only [Request.to_bytes, crlfJoin, hm, hv, hu, List.append_assoc, hmap]

/-- The serializer's output for a response, reshaped around `crlfJoin`. -/
theorem response_to_bytes_shape (r : Response)
    (hhs : ∀ kv ∈ r.header, (∀ c ∈ kv.1, c < 0x80) ∧ (∀ c ∈ kv.2, c < 0x80)) :
    Response.to_bytes r =
      crlfJoin (Version.to_static r.version ++ [0x20] ++ Status.to_static_str r.status)
        (r.header.map headerLine) ++
      [13, 10, 13, 10] ++ r.body.getD [] := by
  have hv : utf8Encode (Version.to_static r.version) = Version.to_static r.version :=
    utf8Encode_ascii _ (fun c hc => ((version_str_props r.version).1.2 c hc).1)
  have hst : utf8Encode (Status.to_static_str r.status) = Status.to_static_str r.status :=
    utf8Encode_ascii _ (fun c hc => ((status_str_props r.status).2.1 c hc).1)
  have hmap : r.header.map (fun kv =>
      [13, 10] ++ (utf8Encode kv.1 ++ ([0x3A, 0x20] ++ utf8Encode kv.2))) =
      (r.header.map headerLine).map (fun l => [13, 10] ++ l) := by
    rw [List.map_map]
    apply List.map_congr_left
    intro kv hkv
    have h1 := utf8Encode_ascii kv.1 (hhs kv hkv).1
    have h2 := utf8Encode_ascii kv.2 (hhs kv hkv).2
    simp only [Function.comp_apply, headerLine, h1, h2, List.append_assoc]
  simp only [Response.to_bytes, crlfJoin, hv, hst, List.append_assoc, hmap]

/-! ### Parsing the serialized header block -/

theorem headers_block_parse_nil :
    collectHeaders ((splitOnSub [13, 10] (trimW [13, 10])).filter
      (fun l => l ≠ [])) [] = .ok [] := by
  decide

theorem headers_block_parse_cons (kv0 : Str × Str) (hs' : List (Str × Str))
    (hnd : ((kv0 :: hs').map Prod.fst).Nodup)
    (hsafe : ∀ kv ∈ kv0 :: hs', keySafe kv.1 ∧ valSafe kv.2) :
    collectHeaders ((splitOnSub [13, 10] (trimW
      (crlfJoin (headerLine kv0) (hs'.map headerLine) ++ [13, 10, 13, 10]))).filter
      (fun l => l ≠ [])) [] = .ok (kv0 :: hs') := by
  have hlines_props : ∀ l ∈ headerLine kv0 :: hs'.map headerLine,
      l ≠ [] ∧ ∀ c ∈ l, c ≠ 13 ∧ c ≠ 10 := by
    intro l hl
    rcases List.mem_cons.mp hl with rfl | hl'
    · obtain ⟨hk, hv⟩ := hsafe kv0 (by simp)
      exact ⟨headerLine_ne_nil kv0,
        headerLine_no_crlf (fun c hc => ⟨(hk.1 c hc).2.1, (hk.1 c hc).2.2⟩)
          (fun c hc => ⟨(hv.2.1 c hc).2.1, (hv.2.1 c hc).2.2⟩)⟩
    · rw [List.mem_map] at hl'
      obtain ⟨kv, hkv, rfl⟩ := hl'
      obtain ⟨hk, hv⟩ := hsafe kv (by simp [hkv])
      exact ⟨headerLine_ne_nil kv,
        headerLine_no_crlf (fun c hc => ⟨(hk.1 c hc).2.1, (hk.1 c hc).2.2⟩)
          (fun c hc => ⟨(hv.2.1 c hc).2.1, (hv.2.1 c hc).2.2⟩)⟩
  have htrim : trimW (crlfJoin (headerLine kv0) (hs'.map headerLine) ++ [13, 10, 13, 10]) =
      crlfJoin (headerLine kv0) (hs'.map headerLine) := by
    apply trimW_append_ws
    · exact crlfJoin_ne_nil _ (headerLine_ne_nil kv0) _
    · intro c hc
      rw [crlfJoin_head? _ (headerLine_ne_nil kv0)] at hc
      have hall := headerLine_head?_not_ws (hsafe kv0 (by simp)).1
      rw [hc] at hall
      simpa using hall
    · intro c hc
      rw [crlfJoin_getLast? _ _ (fun l hl => (hlines_props l (by simp [hl])).1)] at hc
      rw [List.getLast?_map] at hc
      match hgl : hs'.getLast? with
      | none =>
        rw [hgl] at hc
        simp only [Option.map_none', Option.getD_none] at hc
        have hall := headerLine_getLast?_not_ws (hsafe kv0 (by simp)).2
        rw [hc] at hall
        simpa using hall
      | some kw =>
        rw [hgl] at hc
        simp only [Option.map_some', Option.getD_some] at hc
        have hkw : kw ∈ hs' := List.mem_of_getLast?_eq_some hgl
        have hall := headerLine_getLast?_not_ws (hsafe kw (by simp [hkw])).2
        rw [hc] at hall
        simpa using hall
    · decide
  rw [htrim]
  rw [splitOnSub_crlfJoin (headerLine kv0) (hs'.map headerLine) hlines_props]
  rw [List.filter_eq_self.mpr (fun l hl => by simpa using (hlines_props l hl).1)]
  rw [show headerLine kv0 :: hs'.map headerLine = (kv0 :: hs').map headerLine from rfl]
  rw [collectHeaders_map_headerLine _ [] (fun kv hkv => (hsafe kv hkv).1.2.1)]
  rw [foldl_hmInsert_append _ [] hnd (by simp)]
  rw [List.nil_append]

/-! ### The round-trip core -/

/-- Parsing the serialization of a wire-safe request recovers it exactly. -/
theorem request_roundtrip (r : Request)
    (huri : tokenSafe r.uri)
    (hhs : hdrsSafe r.headers)
    (hcoh : parseUsize? ((hmGet r.headers (strOf "Content-Length")).getD (strOf "0")) =
      some r.body.length) :
    Request.from_bytes (Request.to_bytes r) = .ok r := by
  obtain ⟨version, uri, method, headers, body⟩ := r
  simp only [] at huri hhs hcoh
  have hm := method_str_props method
  have hv := version_str_props version
  have hsl_ne : Method.to_static_str method ++ [0x20] ++ uri ++ [0x20] ++
      Version.to_static version ≠ [] := by
    intro h
    rw [List.append_eq_nil, List.append_eq_nil, List.append_eq_nil,
      List.append_eq_nil] at h
    exact hm.1.1 h.1.1.1.1
  have hsl_mem : ∀ c ∈ Method.to_static_str method ++ [0x20] ++ uri ++ [0x20] ++
      Version.to_static version, c ∈ Method.to_static_str method ∨ c = 0x20 ∨
      c ∈ uri ∨ c ∈ Version.to_static version := by
    intro c hc
    simp only [List.mem_append, List.mem_cons, List.not_mem_nil, or_false] at hc
    tauto
  have huri1310 : ∀ c ∈ uri, c ≠ 13 ∧ c ≠ 10 := by
    intro c hc
    have hws := (huri.2 c hc).2
    constructor <;> (rintro rfl; revert hws; decide)
  have hsl_1310 : ∀ c ∈ Method.to_static_str method ++ [0x20] ++ uri ++ [0x20] ++
      Version.to_static version, c ≠ 13 ∧ c ≠ 10 := by
    intro c hc
    rcases hsl_mem c hc with h | h | h | h
    · exact hm.2 c h
    · subst h; exact ⟨by omega, by omega⟩
    · exact huri1310 c h
    · exact hv.2.1 c h
  have hsl_ascii : ∀ c ∈ Method.to_static_str method ++ [0x20] ++ uri ++ [0x20] ++
      Version.to_static version, c < 0x80 := by
    intro c hc
    rcases hsl_mem c hc with h | h | h | h
    · exact (hm.1.2 c h).1
    · omega
    · exact (huri.2 c h).1
    · exact (hv.1.2 c h).1
  have htoks : splitWs (Method.to_static_str method ++ [0x20] ++ uri ++ [0x20] ++
      Version.to_static version) = [Method.to_static_str method, uri,
      Version.to_static version] := by
    rw [show Method.to_static_str method ++ [0x20] ++ uri ++ [0x20] ++
      Version.to_static version = Method.to_static_str method ++ [0x20] ++
      (uri ++ [0x20] ++ Version.to_static version) from by simp [List.append_assoc]]
    rw [splitWs_token_append _ hm.1, splitWs_token_append _ huri,
      splitWs_single _ hv.1]
  have hmr := method_from_str_roundtrip method
  have hvr := version_from_str_roundtrip version
  have hshape := request_to_bytes_shape ⟨version, uri, method, headers, body⟩
    (fun c hc => (huri.2 c hc).1)
    (fun kv hkv => ⟨fun c hc => ((hhs.2 kv hkv).1.1 c hc).1,
      fun c hc => ((hhs.2 kv hkv).2.2.1 c hc).1⟩)
  simp only [] at hshape
  rw [hshape]
  cases headers with
  | nil =>
    have hget : hmGet ([] : HMap) (strOf "Content-Length") = none := rfl
    rw [hget] at hcoh
    simp only [Option.getD_none] at hcoh
    rw [show parseUsize? (strOf "0") = some 0 from by decide] at hcoh
    have hb0 : body = [] := by
      have hlen : body.length = 0 := (Option.some.inj hcoh).symm
      exact List.length_eq_zero.mp hlen
    subst hb0
    simp only [List.map_nil, crlfJoin_nil]
    have hbound := findBoundaryMid_serialized
      (Method.to_static_str method ++ [0x20] ++ uri ++ [0x20] ++
        Version.to_static version) [] []
      ⟨hsl_ne, hsl_1310⟩ (by simp)
    rw [crlfJoin_nil] at hbound
    have hJb4_len : ((Method.to_static_str method ++ [0x20] ++ uri ++ [0x20] ++
        Version.to_static version) ++ [13, 10, 13, 10]).length =
        (Method.to_static_str method ++ [0x20] ++ uri ++ [0x20] ++
        Version.to_static version).length + 4 := by simp; try omega
    have hTake := List.take_left ((Method.to_static_str method ++ [0x20] ++ uri ++
      [0x20] ++ Version.to_static version) ++ [13, 10, 13, 10]) ([] : List Nat)
    have hDrop := List.drop_left ((Method.to_static_str method ++ [0x20] ++ uri ++
      [0x0020] ++ Version.to_static version) ++ [13, 10, 13, 10]) ([] : List Nat)
    rw [hJb4_len] at hTake hDrop
    rw [List.append_assoc _ ([13, 10, 13, 10]) ([] : List Nat)] at hTake hDrop
    rw [← List.append_assoc] at hTake hDrop
    have hDec : utf8Decode? ((Method.to_static_str method ++ [0x20] ++ uri ++ [0x20] ++
        Version.to_static version) ++ [13, 10, 13, 10]) = some
        ((Method.to_static_str method ++ [0x20] ++ uri ++ [0x20] ++
        Version.to_static version) ++ [13, 10, 13, 10]) := by
      apply utf8Decode?_ascii
      intro c hc
      rw [List.mem_append] at hc
      rcases hc with hc | hc
      · exact hsl_ascii c hc
      · simp only [List.mem_cons, List.not_mem_nil, or_false] at hc
        rcases hc with rfl | rfl | rfl | rfl <;> omega
    have hSplit : splitOnceSub [13, 10] ((Method.to_static_str method ++ [0x20] ++ uri ++
        [0x20] ++ Version.to_static version) ++ [13, 10, 13, 10]) =
        some (Method.to_static_str method ++ [0x20] ++ uri ++ [0x20] ++
        Version.to_static version, [13, 10]) := by
      rw [show (Method.to_static_str method ++ [0x20] ++ uri ++ [0x20] ++
        Version.to_static version) ++ [13, 10, 13, 10] =
        (Method.to_static_str method ++ [0x20] ++ uri ++ [0x20] ++
        Version.to_static version) ++ [13, 10] ++ [13, 10] from by simp]
      exact splitOnceSub2_append (by omega)
        (findSubIdx2_none_of_not_mem (fun c hc => (hsl_1310 c hc).1)) _
    simp only [Request.from_bytes, PResult.monad_bind_eq_bind, hbound, optToP_some,
      PResult.bind_ok, hTake, hDrop, hDec,
      show strOf "\r\n" = [13, 10] from rfl, hSplit, htoks,
      List.head?_cons, List.tail_cons, hmr, hvr, List.head?_nil, List.tail_nil,
      Option.isSome_none, Bool.false_eq_true, if_false,
      headers_block_parse_nil, hget, Option.getD_none,
      show parseUsize? (strOf "0") = some 0 from by decide,
      List.length_nil, lt_self_iff_false, Nat.not_lt_zero,
      show sliceTo ([] : List Nat) 0 = .ok [] from rfl]
  | cons kv0 hs' =>
    have hline_props : ∀ l ∈ headerLine kv0 :: hs'.map headerLine,
        l ≠ [] ∧ ∀ c ∈ l, c ≠ 13 ∧ c ≠ 10 := by
      intro l hl
      rcases List.mem_cons.mp hl with rfl | hl'
      · obtain ⟨hk, hvv⟩ := hhs.2 kv0 (by simp)
        exact ⟨headerLine_ne_nil kv0,
          headerLine_no_crlf (fun c hc => ⟨(hk.1 c hc).2.1, (hk.1 c hc).2.2⟩)
            (fun c hc => ⟨(hvv.2.1 c hc).2.1, (hvv.2.1 c hc).2.2⟩)⟩
      · rw [List.mem_map] at hl'
        obtain ⟨kv, hkv, rfl⟩ := hl'
        obtain ⟨hk, hvv⟩ := hhs.2 kv (by simp [hkv])
        exact ⟨headerLine_ne_nil kv,
          headerLine_no_crlf (fun c hc => ⟨(hk.1 c hc).2.1, (hk.1 c hc).2.2⟩)
            (fun c hc => ⟨(hvv.2.1 c hc).2.1, (hvv.2.1 c hc).2.2⟩)⟩
    have hline_ascii : ∀ l ∈ headerLine kv0 :: hs'.map headerLine, ∀ c ∈ l, c < 0x80 := by
      intro l hl
      rcases List.mem_cons.mp hl with rfl | hl'
      · obtain ⟨hk, hvv⟩ := hhs.2 kv0 (by simp)
        exact headerLine_ascii (fun c hc => (hk.1 c hc).1) (fun c hc => (hvv.2.1 c hc).1)
      · rw [List.mem_map] at hl'
        obtain ⟨kv, hkv, rfl⟩ := hl'
        obtain ⟨hk, hvv⟩ := hhs.2 kv (by simp [hkv])
        exact headerLine_ascii (fun c hc => (hk.1 c hc).1) (fun c hc => (hvv.2.1 c hc).1)
    simp only [List.map_cons]
    have hbound := findBoundaryMid_serialized
      (Method.to_static_str method ++ [0x20] ++ uri ++ [0x20] ++
        Version.to_static version) (headerLine kv0 :: hs'.map headerLine) body
      ⟨hsl_ne, hsl_1310⟩ hline_props
    have hJb4_len : (crlfJoin (Method.to_static_str method ++ [0x20] ++ uri ++ [0x20] ++
        Version.to_static version) (headerLine kv0 :: hs'.map headerLine) ++
        [13, 10, 13, 10]).length =
        (crlfJoin (Method.to_static_str method ++ [0x20] ++ uri ++ [0x20] ++
        Version.to_static version) (headerLine kv0 :: hs'.map headerLine)).length + 4 := by
      simp
      try omega
    have hTake := List.take_left (crlfJoin (Method.to_static_str method ++ [0x20] ++
      uri ++ [0x20] ++ Version.to_static version) (headerLine kv0 :: hs'.map headerLine) ++
      [13, 10, 13, 10]) body
    have hDrop := List.drop_left (crlfJoin (Method.to_static_str method ++ [0x20] ++
      uri ++ [0x20] ++ Version.to_static version) (headerLine kv0 :: hs'.map headerLine) ++
      [13, 10, 13, 10]) body
    rw [hJb4_len] at hTake hDrop
    rw [List.append_assoc _ ([13, 10, 13, 10]) body] at hTake hDrop
    rw [← List.append_assoc] at hTake hDrop
    have hDec : utf8Decode? (crlfJoin (Method.to_static_str method ++ [0x20] ++ uri ++
        [0x20] ++ Version.to_static version) (headerLine kv0 :: hs'.map headerLine) ++
        [13, 10, 13, 10]) = some (crlfJoin (Method.to_static_str method ++ [0x20] ++ uri ++
        [0x20] ++ Version.to_static version) (headerLine kv0 :: hs'.map headerLine) ++
        [13, 10, 13, 10]) := by
      apply utf8Decode?_ascii
      intro c hc
      rw [List.mem_append] at hc
      rcases hc with hc | hc
      · rcases mem_crlfJoin hc with h | h | h | ⟨l, hl, hcl⟩
        · exact hsl_ascii c h
        · omega
        · omega
        · exact hline_ascii l hl c hcl
      · simp only [List.mem_cons, List.not_mem_nil, or_false] at hc
        rcases hc with rfl | rfl | rfl | rfl <;> omega
    have hSplit : splitOnceSub [13, 10] (crlfJoin (Method.to_static_str method ++ [0x20] ++
        uri ++ [0x20] ++ Version.to_static version) (headerLine kv0 :: hs'.map headerLine) ++
        [13, 10, 13, 10]) = some (Method.to_static_str method ++ [0x20] ++ uri ++ [0x20] ++
        Version.to_static version, crlfJoin (headerLine kv0) (hs'.map headerLine) ++
        [13, 10, 13, 10]) := by
      rw [crlfJoin_cons]
      rw [show (Method.to_static_str method ++ [0x20] ++ uri ++ [0x20] ++
        Version.to_static version) ++ [13, 10] ++ crlfJoin (headerLine kv0)
        (hs'.map headerLine) ++ [13, 10, 13, 10] =
        (Method.to_static_str method ++ [0x20] ++ uri ++ [0x20] ++
        Version.to_static version) ++ [13, 10] ++ (crlfJoin (headerLine kv0)
        (hs'.map headerLine) ++ [13, 10, 13, 10]) from by simp [List.append_assoc]]
      exact splitOnceSub2_append (by omega)
        (findSubIdx2_none_of_not_mem (fun c hc => (hsl_1310 c hc).1)) _
    have hColl := headers_block_parse_cons kv0 hs' hhs.1 hhs.2
    have hslice : sliceTo body body.length = .ok body := by
      simp [sliceTo, List.take_length]
    simp only [Request.from_bytes, PResult.monad_bind_eq_bind, hbound, optToP_some,
      PResult.bind_ok, hTake, hDrop, hDec,
      show strOf "\r\n" = [13, 10] from rfl, hSplit, htoks,
      List.head?_cons, List.tail_cons, hmr, hvr, List.head?_nil, List.tail_nil,
      Option.isSome_none, Bool.false_eq_true, if_false,
      hColl, hcoh, lt_self_iff_false, hslice]

theorem version_trim (v : Version) : trimW (Version.to_static v) = Version.to_static v := by
  cases v <;> decide

theorem status_trim (s : Status) :
    trimW (Status.to_static_str s) = Status.to_static_str s := by
  cases s <;> decide

/-- Parsing the serialization of a wire-safe response recovers it exactly. -/
theorem response_roundtrip (r : Response)
    (hst : r.status ≠ .NotImplemented)
    (hhs : hdrsSafe r.header)
    (hcoh : parseUsize? ((hmGet r.header (strOf "Content-Length")).getD (strOf "0")) =
      some ((r.body.getD []).length))
    (hbody : r.body ≠ some []) :
    Response.from_bytes (Response.to_bytes r) = .ok r := by
  obtain ⟨version, status, header, body⟩ := r
  simp only [] at hst hhs hcoh hbody
  have hv := version_str_props version
  have hs := status_str_props status
  have hsl_ne : Version.to_static version ++ [0x20] ++ Status.to_static_str status ≠ [] := by
    intro h
    rw [List.append_eq_nil, List.append_eq_nil] at h
    exact hv.1.1 h.1.1
  have hsl_mem : ∀ c ∈ Version.to_static version ++ [0x20] ++ Status.to_static_str status,
      c ∈ Version.to_static version ∨ c = 0x20 ∨ c ∈ Status.to_static_str status := by
    intro c hc
    simp only [List.mem_append, List.mem_cons, List.not_mem_nil, or_false] at hc
    tauto
  have hsl_1310 : ∀ c ∈ Version.to_static version ++ [0x20] ++ Status.to_static_str status,
      c ≠ 13 ∧ c ≠ 10 := by
    intro c hc
    rcases hsl_mem c hc with h | h | h
    · exact hv.2.1 c h
    · subst h; exact ⟨by omega, by omega⟩
    · exact ⟨((hs.2.1 c h)).2.1, ((hs.2.1 c h)).2.2⟩
  have hsl_ascii : ∀ c ∈ Version.to_static version ++ [0x20] ++ Status.to_static_str status,
      c < 0x80 := by
    intro c hc
    rcases hsl_mem c hc with h | h | h
    · exact (hv.1.2 c h).1
    · omega
    · exact (hs.2.1 c h).1
  have hStart : splitOnceSub [0x20]
      (Version.to_static version ++ [0x20] ++ Status.to_static_str status) =
      some (Version.to_static version, Status.to_static_str status) :=
    splitOnceSub1_append (fun c hc => hv.2.2 c hc) _
  have hvr : Version.from_str (trimW (Version.to_static version)) = .ok version := by
    rw [version_trim]
    exact version_from_str_roundtrip version
  have hsr : Status.from_str (trimW (Status.to_static_str status)) = .ok status := by
    rw [status_trim]
    exact status_from_str_roundtrip status hst
  have hshape := response_to_bytes_shape ⟨version, status, header, body⟩
    (fun kv hkv => ⟨fun c hc => ((hhs.2 kv hkv).1.1 c hc).1,
      fun c hc => ((hhs.2 kv hkv).2.2.1 c hc).1⟩)
  simp only [] at hshape
  rw [hshape]
  cases header with
  | nil =>
    have hget : hmGet ([] : HMap) (strOf "Content-Length") = none := rfl
    rw [hget] at hcoh
    simp only [Option.getD_none] at hcoh
    rw [show parseUsize? (strOf "0") = some 0 from by decide] at hcoh
    have hb0 : body = none := by
      match body, hbody, hcoh with
      | none, _, _ => rfl
      | some b, hbody, hcoh =>
        exfalso
        simp only [Option.getD_some] at hcoh
        have hlen : b.length = 0 := (Option.some.inj hcoh).symm
        exact hbody (by rw [List.length_eq_zero.mp hlen])
    subst hb0
    simp only [List.map_nil, crlfJoin_nil, Option.getD_none]
    have hbound := findBoundaryMid_serialized
      (Version.to_static version ++ [0x20] ++ Status.to_static_str status)
      [] [] ⟨hsl_ne, hsl_1310⟩ (by simp)
    rw [crlfJoin_nil] at hbound
    have hJb4_len : ((Version.to_static version ++ [0x20] ++ Status.to_static_str status) ++
        [13, 10, 13, 10]).length = (Version.to_static version ++ [0x20] ++
        Status.to_static_str status).length + 4 := by simp; try omega
    have hTake := List.take_left ((Version.to_static version ++ [0x20] ++
      Status.to_static_str status) ++ [13, 10, 13, 10]) ([] : List Nat)
    have hDrop := List.drop_left ((Version.to_static version ++ [0x20] ++
      Status.to_static_str status) ++ [13, 10, 13, 10]) ([] : List Nat)
    rw [hJb4_len] at hTake hDrop
    rw [List.append_assoc _ ([13, 10, 13, 10]) ([] : List Nat)] at hTake hDrop
    rw [← List.append_assoc] at hTake hDrop
    have hDec : utf8Decode? ((Version.to_static version ++ [0x20] ++
        Status.to_static_str status) ++ [13, 10, 13, 10]) = some
        ((Version.to_static version ++ [0x20] ++ Status.to_static_str status) ++
        [13, 10, 13, 10]) := by
      apply utf8Decode?_ascii
      intro c hc
      rw [List.mem_append] at hc
      rcases hc with hc | hc
      · exact hsl_ascii c hc
      · simp only [List.mem_cons, List.not_mem_nil, or_false] at hc
        rcases hc with rfl | rfl | rfl | rfl <;> omega
    have hSplit : splitOnceSub [13, 10] ((Version.to_static version ++ [0x20] ++
        Status.to_static_str status) ++ [13, 10, 13, 10]) =
        some (Version.to_static version ++ [0x20] ++ Status.to_static_str status,
        [13, 10]) := by
      rw [show (Version.to_static version ++ [0x20] ++ Status.to_static_str status) ++
        [13, 10, 13, 10] = (Version.to_static version ++ [0x20] ++
        Status.to_static_str status) ++ [13, 10] ++ [13, 10] from by simp]
      exact splitOnceSub2_append (by omega)
        (findSubIdx2_none_of_not_mem (fun c hc => (hsl_1310 c hc).1)) _
    simp only [Response.from_bytes, PResult.monad_bind_eq_bind, hbound, optToP_some,
      PResult.bind_ok, hTake, hDrop, hDec,
      show strOf "\r\n" = [13, 10] from rfl, show strOf " " = [0x20] from rfl,
      hSplit, hStart, hvr, hsr,
      headers_block_parse_nil, hget, Option.getD_none,
      show parseUsize? (strOf "0") = some 0 from by decide,
      List.length_nil, lt_self_iff_false, Nat.not_lt_zero, if_false]
  | cons kv0 hs' =>
    have hline_props : ∀ l ∈ headerLine kv0 :: hs'.map headerLine,
        l ≠ [] ∧ ∀ c ∈ l, c ≠ 13 ∧ c ≠ 10 := by
      intro l hl
      rcases List.mem_cons.mp hl with rfl | hl'
      · obtain ⟨hk, hvv⟩ := hhs.2 kv0 (by simp)
        exact ⟨headerLine_ne_nil kv0,
          headerLine_no_crlf (fun c hc => ⟨(hk.1 c hc).2.1, (hk.1 c hc).2.2⟩)
            (fun c hc => ⟨(hvv.2.1 c hc).2.1, (hvv.2.1 c hc).2.2⟩)⟩
      · rw [List.mem_map] at hl'
        obtain ⟨kv, hkv, rfl⟩ := hl'
        obtain ⟨hk, hvv⟩ := hhs.2 kv (by simp [hkv])
        exact ⟨headerLine_ne_nil kv,
          headerLine_no_crlf (fun c hc => ⟨(hk.1 c hc).2.1, (hk.1 c hc).2.2⟩)
            (fun c hc => ⟨(hvv.2.1 c hc).2.1, (hvv.2.1 c hc).2.2⟩)⟩
    have hline_ascii : ∀ l ∈ headerLine kv0 :: hs'.map headerLine, ∀ c ∈ l, c < 0x80 := by
      intro l hl
      rcases List.mem_cons.mp hl with rfl | hl'
      · obtain ⟨hk, hvv⟩ := hhs.2 kv0 (by simp)
        exact headerLine_ascii (fun c hc => (hk.1 c hc).1) (fun c hc => (hvv.2.1 c hc).1)
      · rw [List.mem_map] at hl'
        obtain ⟨kv, hkv, rfl⟩ := hl'
        obtain ⟨hk, hvv⟩ := hhs.2 kv (by simp [hkv])
        exact headerLine_ascii (fun c hc => (hk.1 c hc).1) (fun c hc => (hvv.2.1 c hc).1)
    simp only [List.map_cons]
    have hbound := findBoundaryMid_serialized
      (Version.to_static version ++ [0x20] ++ Status.to_static_str status)
      (headerLine kv0 :: hs'.map headerLine) (body.getD [])
      ⟨hsl_ne, hsl_1310⟩ hline_props
    have hJb4_len : (crlfJoin (Version.to_static version ++ [0x20] ++
        Status.to_static_str status) (headerLine kv0 :: hs'.map headerLine) ++
        [13, 10, 13, 10]).length = (crlfJoin (Version.to_static version ++ [0x20] ++
        Status.to_static_str status) (headerLine kv0 :: hs'.map headerLine)).length + 4 := by
      simp
      try omega
    have hTake := List.take_left (crlfJoin (Version.to_static version ++ [0x20] ++
      Status.to_static_str status) (headerLine kv0 :: hs'.map headerLine) ++
      [13, 10, 13, 10]) (body.getD [])
    have hDrop := List.drop_left (crlfJoin (Version.to_static version ++ [0x20] ++
      Status.to_static_str status) (headerLine kv0 :: hs'.map headerLine) ++
      [13, 10, 13, 10]) (body.getD [])
    rw [hJb4_len] at hTake hDrop
    rw [List.append_assoc _ ([13, 10, 13, 10]) (body.getD [])] at hTake hDrop
    rw [← List.append_assoc] at hTake hDrop
    have hDec : utf8Decode? (crlfJoin (Version.to_static version ++ [0x20] ++
        Status.to_static_str status) (headerLine kv0 :: hs'.map headerLine) ++
        [13, 10, 13, 10]) = some (crlfJoin (Version.to_static version ++ [0x20] ++
        Status.to_static_str status) (headerLine kv0 :: hs'.map headerLine) ++
        [13, 10, 13, 10]) := by
      apply utf8Decode?_ascii
      intro c hc
      rw [List.mem_append] at hc
      rcases hc with hc | hc
      · rcases mem_crlfJoin hc with h | h | h | ⟨l, hl, hcl⟩
        · exact hsl_ascii c h
        · omega
        · omega
        · exact hline_ascii l hl c hcl
      · simp only [List.mem_cons, List.not_mem_nil, or_false] at hc
        rcases hc with rfl | rfl | rfl | rfl <;> omega
    have hSplit : splitOnceSub [13, 10] (crlfJoin (Version.to_static version ++ [0x20] ++
        Status.to_static_str status) (headerLine kv0 :: hs'.map headerLine) ++
        [13, 10, 13, 10]) = some (Version.to_static version ++ [0x20] ++
        Status.to_static_str status, crlfJoin (headerLine kv0) (hs'.map headerLine) ++
        [13, 10, 13, 10]) := by
      rw [crlfJoin_cons]
      rw [show (Version.to_static version ++ [0x20] ++ Status.to_static_str status) ++
        [13, 10] ++ crlfJoin (headerLine kv0) (hs'.map headerLine) ++ [13, 10, 13, 10] =
        (Version.to_static version ++ [0x20] ++ Status.to_static_str status) ++ [13, 10] ++
        (crlfJoin (headerLine kv0) (hs'.map headerLine) ++ [13, 10, 13, 10]) from by
          simp [List.append_assoc]]
      exact splitOnceSub2_append (by omega)
        (findSubIdx2_none_of_not_mem (fun c hc => (hsl_1310 c hc).1)) _
    have hColl := headers_block_parse_cons kv0 hs' hhs.1 hhs.2
    simp only [Response.from_bytes, PResult.monad_bind_eq_bind, hbound, optToP_some,
      PResult.bind_ok, hTake, hDrop, hDec,
      show strOf "\r\n" = [13, 10] from rfl, show strOf " " = [0x20] from rfl,
      hSplit, hStart, hvr, hsr, hColl, hcoh, lt_self_iff_false, if_false]
    match body, hbody with
    | none, _ =>
      simp
    | some b, hbody =>
      have hbne : b ≠ [] := by simpa using hbody
      have hpos : 0 < b.length := List.length_pos.mpr hbne
      simp only [Option.getD_some]
      rw [if_pos hpos]
      have hslice : sliceTo b b.length = .ok b := by
        simp [sliceTo, List.take_length]
      simp only [hslice, PResult.bind_ok]

/-- A request builder with wire-safe fields finishes into a message
satisfying the round-trip preconditions. -/
theorem requestBuilder_finish_safe (b : RequestBuilder)
    (huri : tokenSafe (b.uri.getD (strOf "/")))
    (hnd : (b.headers.map Prod.fst).Nodup)
    (hsafe : ∀ kv ∈ b.headers, kv.1 ≠ strOf "Content-Length" →
      keySafe kv.1 ∧ valSafe kv.2)
    (hlen : (b.body.getD []).length < 2 ^ 64) :
    tokenSafe b.finish.uri ∧ hdrsSafe b.finish.headers ∧
    parseUsize? ((hmGet b.finish.headers (strOf "Content-Length")).getD (strOf "0")) =
      some b.finish.body.length := by
  have hkeyCL : keySafe (strOf "Content-Length") := by decide
  refine ⟨huri, ?_, ?_⟩
  · show hdrsSafe (if (b.body.getD []).isEmpty then
      hmRemove b.headers (strOf "Content-Length")
      else hmInsert b.headers (strOf "Content-Length")
        (natToStr (b.body.getD []).length))
    split
    · refine ⟨nodup_hmRemove hnd _, ?_⟩
      intro kv hkv
      obtain ⟨hmem, hne⟩ := mem_hmRemove hkv
      exact hsafe kv hmem hne
    · refine ⟨nodup_hmInsert hnd _ _, ?_⟩
      intro kv hkv
      rcases mem_hmInsert hkv with rfl | ⟨hmem, hne⟩
      · exact ⟨hkeyCL, valSafe_natToStr _⟩
      · exact hsafe kv hmem hne
  · show parseUsize? ((hmGet (if (b.body.getD []).isEmpty then
      hmRemove b.headers (strOf "Content-Length")
      else hmInsert b.headers (strOf "Content-Length")
        (natToStr (b.body.getD []).length)) (strOf "Content-Length")).getD (strOf "0")) =
      some (b.body.getD []).length
    split
    · rename_i hemp
      rw [hmGet_hmRemove_self]
      simp only [Option.getD_none]
      rw [List.isEmpty_iff] at hemp
      rw [hemp]
      decide
    · rw [hmGet_hmInsert_self]
      simp only [Option.getD_some]
      exact parseUsize?_natToStr _ hlen

/-- A response builder with wire-safe fields finishes into a message
satisfying the round-trip preconditions. -/
theorem responseBuilder_finish_safe (rb : ResponseBuilder)
    (hnd : (rb.header.map Prod.fst).Nodup)
    (hsafe : ∀ kv ∈ rb.header, kv.1 ≠ strOf "Content-Length" →
      keySafe kv.1 ∧ valSafe kv.2)
    (hlen : (rb.body.getD []).length < 2 ^ 64) :
    hdrsSafe rb.finish.header ∧
    parseUsize? ((hmGet rb.finish.header (strOf "Content-Length")).getD (strOf "0")) =
      some ((rb.finish.body.getD []).length) := by
  have hkeyCL : keySafe (strOf "Content-Length") := by decide
  constructor
  · show hdrsSafe (match rb.body.map List.length with
      | some len => hmInsert rb.header (strOf "Content-Length") (natToStr len)
      | none => hmRemove rb.header (strOf "Content-Length"))
    match rb.body with
    | none =>
      refine ⟨nodup_hmRemove hnd _, ?_⟩
      intro kv hkv
      obtain ⟨hmem, hne⟩ := mem_hmRemove hkv
      exact hsafe kv hmem hne
    | some bs =>
      refine ⟨nodup_hmInsert hnd _ _, ?_⟩
      intro kv hkv
      rcases mem_hmInsert hkv with rfl | ⟨hmem, hne⟩
      · exact ⟨hkeyCL, valSafe_natToStr _⟩
      · exact hsafe kv hmem hne
  · show parseUsize? ((hmGet (match rb.body.map List.length with
      | some len => hmInsert rb.header (strOf "Content-Length") (natToStr len)
      | none => hmRemove rb.header (strOf "Content-Length"))
        (strOf "Content-Length")).getD (strOf "0")) = some ((rb.body.getD []).length)
    match rb.body, hlen with
    | none, _ =>
      simp only [Option.map_none']
      rw [hmGet_hmRemove_self]
      decide
    | some bs, hlen =>
      simp only [Option.map_some', Option.getD_some]
      rw [hmGet_hmInsert_self]
      simp only [Option.getD_some]
      exact parseUsize?_natToStr _ (by simpa using hlen)

/-! ### The claims -/

/-- C1: the spec says a body region shorter than the declared
`Content-Length` must fail with `NotEnoughData`. The code's guard is
inverted (`content_len < body.len()`), so on the spec's own example —
`"HTTP/1.1 200 OK\r\nContent-Length: 5\r\n\r\nHell"` (4 body bytes, 5
declared) — the subsequent slice `&body[..content_len]` goes out of
bounds and the parser panics instead of returning `NotEnoughData`;
the request parser behaves identically. -/
theorem c1_short_body_panics_not_NotEnoughData :
    Response.from_bytes (strOf "HTTP/1.1 200 OK\r\nContent-Length: 5\r\n\r\nHell") =
      .panic ∧
    Request.from_bytes (strOf "GET / HTTP/1.1\r\nContent-Length: 5\r\n\r\nHell") =
      .panic := by
  constructor <;> decide

/-- C2: the spec says a body region at least as long as the declared
`Content-Length` parses successfully with the body truncated to exactly
that length. Because the guard is inverted, any trailing byte beyond the
declared length makes the parser return `NotEnoughData` instead of
succeeding: here 3 body bytes are available, 2 declared, and both
parsers reject the message. -/
theorem c2_trailing_bytes_rejected_not_truncated :
    Request.from_bytes (strOf "GET / HTTP/1.1\r\nContent-Length: 2\r\n\r\nHi!") =
      .err .NotEnoughData ∧
    Response.from_bytes (strOf "HTTP/1.1 200 OK\r\nContent-Length: 2\r\n\r\nHi!") =
      .err .NotEnoughData := by
  constructor <;> decide

/-- C4 counterexample: the claim says the serialized form of
`build_*().body(bytes_of_len_0).finish()` never carries a
`Content-Length` header. For the `ResponseBuilder` of `src/response.rs`,
`.body(vec![]).finish()` stores `Some(empty)` and `finish` inserts
`Content-Length: 0`. -/
theorem c4_counterexample_response_body_empty_sets_zero :
    hmGet ((ResponseBuilder.new .Ok).setBody []).finish.header
      (strOf "Content-Length") = some (strOf "0") := by
  decide

/-- C4 amended: `RequestBuilder::finish` (src/request.rs) and the two
serializing builders (`RequestBuilder` of src/request_builder.rs and
`ResponseBuilder` of src/response_builder.rs) set `Content-Length` to
the body length when the accumulated body is non-empty and remove the
header when it is empty — for the serializing builders this is stated of
the header block their `finish` serializes: its `Content-Length` entry
is absent exactly when the body is empty and is the body's decimal
length otherwise, while every other key's entry is untouched. The
`ResponseBuilder` of src/response.rs instead keys the decision on
whether a body was ever set: it removes the header only when no body
was set, and otherwise sets `Content-Length` to the body's length —
including `"0"` for a set-but-empty body. -/
theorem c4_amended_content_length_derivation
    (b : RequestBuilder) (rb : ResponseBuilder)
    (sb : SerRequestBuilder) (srb : SerResponseBuilder) :
    ((b.body.getD []).isEmpty = true →
      hmGet b.finish.headers (strOf "Content-Length") = none) ∧
    ((b.body.getD []).isEmpty = false →
      hmGet b.finish.headers (strOf "Content-Length") =
        some (natToStr (b.body.getD []).length)) ∧
    (rb.body = none →
      hmGet rb.finish.header (strOf "Content-Length") = none) ∧
    (∀ bs, rb.body = some bs →
      hmGet rb.finish.header (strOf "Content-Length") = some (natToStr bs.length)) ∧
    (∃ h, sb.finish =
        utf8Encode sb.method.to_static_str ++ [0x20] ++
        utf8Encode sb.uri ++ [0x20] ++
        utf8Encode sb.version.to_static ++
        (h.map (fun kv =>
          [13, 10] ++ utf8Encode kv.1 ++ [0x3A, 0x20] ++ utf8Encode kv.2)).flatten ++
        [13, 10, 13, 10] ++ sb.body ∧
      (sb.body = [] → hmGet h (strOf "Content-Length") = none) ∧
      (sb.body ≠ [] →
        hmGet h (strOf "Content-Length") = some (natToStr sb.body.length)) ∧
      (∀ u, u ≠ strOf "Content-Length" → hmGet h u = hmGet sb.header u)) ∧
    (∃ h, srb.finish =
        utf8Encode srb.version.to_static ++ [0x20] ++
        utf8Encode srb.status.to_static_str ++
        (h.map (fun kv =>
          [13, 10] ++ utf8Encode kv.1 ++ [0x3A, 0x20] ++ utf8Encode kv.2)).flatten ++
        [13, 10, 13, 10] ++ srb.body ∧
      (srb.body = [] → hmGet h (strOf "Content-Length") = none) ∧
      (srb.body ≠ [] →
        hmGet h (strOf "Content-Length") = some (natToStr srb.body.length)) ∧
      (∀ u, u ≠ strOf "Content-Length" → hmGet h u = hmGet srb.header u)) := by
  refine ⟨?_, ?_, ?_, ?_, ?_, ?_⟩
  · intro hb
    simp only [RequestBuilder.finish, hb, if_pos]
    exact hmGet_hmRemove_self ..
  · intro hb
    simp only [RequestBuilder.finish, hb, Bool.false_eq_true, if_false]
    exact hmGet_hmInsert_self ..
  · intro hb
    simp only [ResponseBuilder.finish, hb, Option.map_none']
    exact hmGet_hmRemove_self ..
  · intro bs hb
    simp only [ResponseBuilder.finish, hb, Option.map_some']
    exact hmGet_hmInsert_self ..
  · refine ⟨if sb.body.isEmpty
        then hmRemove sb.header (strOf "Content-Length")
        else hmInsert sb.header (strOf "Content-Length") (natToStr sb.body.length),
      rfl, ?_, ?_, ?_⟩
    · intro hb
      simp [hb, hmGet_hmRemove_self]
    · intro hb
      have hE : sb.body.isEmpty = false := by
        cases hbody : sb.body with
        | nil => exact absurd hbody hb
        | cons a t => rfl
      simp [hE, hmGet_hmInsert_self]
    · intro u hu
      by_cases hE : sb.body.isEmpty = true
      · rw [if_pos hE]
        exact hmGet_hmRemove_ne _ _ _ hu
      · rw [if_neg hE]
        exact hmGet_hmInsert_ne _ _ _ _ hu
  · refine ⟨if srb.body.isEmpty
        then hmRemove srb.header (strOf "Content-Length")
        else hmInsert srb.header (strOf "Content-Length") (natToStr srb.body.length),
      rfl, ?_, ?_, ?_⟩
    · intro hb
      simp [hb, hmGet_hmRemove_self]
    · intro hb
      have hE : srb.body.isEmpty = false := by
        cases hbody : srb.body with
        | nil => exact absurd hbody hb
        | cons a t => rfl
      simp [hE, hmGet_hmInsert_self]
    · intro u hu
      by_cases hE : srb.body.isEmpty = true
      · rw [if_pos hE]
        exact hmGet_hmRemove_ne _ _ _ hu
      · rw [if_neg hE]
        exact hmGet_hmInsert_ne _ _ _ _ hu

/-- C4 witness: the amended derivation evaluated on a request builder
(src/request.rs) with body `"ab"`, a response builder (src/response.rs)
with body `"xyz"`, a serializing request builder with body `"ab"`
(`Content-Length: 2` in the serialized header block), and a serializing
response builder with an empty body (no `Content-Length` entry). -/
theorem c4_amended_content_length_derivation_witness :
    hmGet ({ RequestBuilder.new .Get with body := some (strOf "ab") }).finish.headers
      (strOf "Content-Length") = some (natToStr 2) ∧
    hmGet ((ResponseBuilder.new .Ok).setBody (strOf "xyz")).finish.header
      (strOf "Content-Length") = some (natToStr 3) ∧
    (∃ h, ({ SerRequestBuilder.new .Get (strOf "/") with
          body := strOf "ab" } : SerRequestBuilder).finish =
        utf8Encode (Method.to_static_str .Get) ++ [0x20] ++
        utf8Encode (strOf "/") ++ [0x20] ++
        utf8Encode (Version.to_static .Http1) ++
        (h.map (fun kv =>
          [13, 10] ++ utf8Encode kv.1 ++ [0x3A, 0x20] ++ utf8Encode kv.2)).flatten ++
        [13, 10, 13, 10] ++ strOf "ab" ∧
      hmGet h (strOf "Content-Length") = some (natToStr 2)) ∧
    (∃ h, (SerResponseBuilder.new .Ok).finish =
        utf8Encode (Version.to_static .Http1) ++ [0x20] ++
        utf8Encode (Status.to_static_str .Ok) ++
        (h.map (fun kv =>
          [13, 10] ++ utf8Encode kv.1 ++ [0x3A, 0x20] ++ utf8Encode kv.2)).flatten ++
        [13, 10, 13, 10] ++ ([] : List Nat) ∧
      hmGet h (strOf "Content-Length") = none) := by
  refine ⟨?_, ?_, ?_, ?_⟩
  · exact ((c4_amended_content_length_derivation
      { RequestBuilder.new .Get with body := some (strOf "ab") }
      (ResponseBuilder.new .Ok)
      (SerRequestBuilder.new .Get (strOf "/"))
      (SerResponseBuilder.new .Ok)).2.1 (by decide))
  · exact ((c4_amended_content_length_derivation
      (RequestBuilder.new .Get)
      ((ResponseBuilder.new .Ok).setBody (strOf "xyz"))
      (SerRequestBuilder.new .Get (strOf "/"))
      (SerResponseBuilder.new .Ok)).2.2.2.1 (strOf "xyz") rfl)
  · obtain ⟨h, hs, _, hcl, _⟩ := (c4_amended_content_length_derivation
      (RequestBuilder.new .Get)
      (ResponseBuilder.new .Ok)
      ({ SerRequestBuilder.new .Get (strOf "/") with body := strOf "ab" })
      (SerResponseBuilder.new .Ok)).2.2.2.2.1
    exact ⟨h, hs, hcl (by decide)⟩
  · obtain ⟨h, hs, hcl, _, _⟩ := (c4_amended_content_length_derivation
      (RequestBuilder.new .Get)
      (ResponseBuilder.new .Ok)
      (SerRequestBuilder.new .Get (strOf "/"))
      (SerResponseBuilder.new .Ok)).2.2.2.2.2
    exact ⟨h, hs, hcl rfl⟩

/-- C5: `parse ∘ render` is the identity on every `Method` and every
`Version`; for `Status` it is the identity on eleven of the twelve
values, but `Status::from_str` has no `"501"` arm and falls into the
`todo` placeholder, so rendering `NotImplemented` to `"501 Not
Implemented"` and parsing it back panics instead of returning the value:
parse and render are not exact inverses on the full closed set. -/
theorem c5_vocab_roundtrip_fails_at_501 :
    (∀ m : Method, Method.from_str (Method.to_static_str m) = .ok m) ∧
    (∀ v : Version, Version.from_str (Version.to_static v) = .ok v) ∧
    (∀ s : Status, s = .NotImplemented ∨
      Status.from_str (Status.to_static_str s) = .ok s) ∧
    Status.from_str (Status.to_static_str .NotImplemented) = .panic := by
  refine ⟨fun m => ?_, fun v => ?_, fun s => ?_, by decide⟩
  · cases m <;> decide
  · cases v <;> decide
  · cases s <;> first | exact .inl rfl | exact .inr (by decide)

/-- C6 counterexample: the claim asserts the vocabulary parsers are
total and never reach an unreachable or placeholder path, with a
dedicated unrecognized-status condition; but an unrecognized numeric
code reaches the `todo` placeholder and panics. -/
theorem c6_counterexample_status_parse_panics :
    Status.from_str (strOf "999 Whatever") = .panic := by
  decide

/-- C6 amended: `Method::from_str` and `Version::from_str` are total and
return `InvalidHeader` on every token outside their closed sets;
`Status::from_str` returns `InvalidHeader` only when the trimmed token
has no space to split a numeric code off, and reaches the placeholder
panic for every token whose code prefix is outside the recognized set. -/
theorem c6_amended_parse_totality
    (s : Str) :
    (s ∉ [strOf "GET", strOf "POST", strOf "PUT", strOf "DELETE"] →
      Method.from_str s = .err .InvalidHeader) ∧
    (s ∉ [strOf "HTTP/1.0", strOf "HTTP/1.1", strOf "HTTP/2", strOf "HTTP/3"] →
      Version.from_str s = .err .InvalidHeader) ∧
    (splitOnceSub (strOf " ") (trimW s) = none →
      Status.from_str s = .err .InvalidHeader) ∧
    (∀ num rest, splitOnceSub (strOf " ") (trimW s) = some (num, rest) →
      num ∉ [strOf "200", strOf "300", strOf "400", strOf "401", strOf "403",
        strOf "404", strOf "405", strOf "418", strOf "500", strOf "503",
        strOf "505"] →
      Status.from_str s = .panic) := by
  refine ⟨?_, ?_, ?_, ?_⟩
  · intro hmem
    simp only [List.mem_cons, List.not_mem_nil, or_false, not_or] at hmem
    obtain ⟨h1, h2, h3, h4⟩ := hmem
    simp only [Method.from_str, if_neg h1, if_neg h2, if_neg h3, if_neg h4]
  · intro hmem
    simp only [List.mem_cons, List.not_mem_nil, or_false, not_or] at hmem
    obtain ⟨h1, h2, h3, h4⟩ := hmem
    simp only [Version.from_str, if_neg h1, if_neg h2, if_neg h3, if_neg h4]
  · intro hsp
    simp only [Status.from_str, hsp]
  · intro num rest hsp hmem
    simp only [List.mem_cons, List.not_mem_nil, or_false, not_or] at hmem
    obtain ⟨h1, h2, h3, h4, h5, h6, h7, h8, h9, h10, h11⟩ := hmem
    simp only [Status.from_str, hsp, if_neg h1, if_neg h2, if_neg h3, if_neg h4,
      if_neg h5, if_neg h6, if_neg h7, if_neg h8, if_neg h9, if_neg h10, if_neg h11]

/-- C6 witness: the amended totality statement evaluated at the token
`"FOO"` (no space: all three error conjuncts fire) and at
`"999 Whatever"` (unrecognized code: the placeholder panic fires). -/
theorem c6_amended_parse_totality_witness :
    Method.from_str (strOf "FOO") = .err .InvalidHeader ∧
    Version.from_str (strOf "FOO") = .err .InvalidHeader ∧
    Status.from_str (strOf "FOO") = .err .InvalidHeader ∧
    Status.from_str (strOf "999 Whatever") = .panic := by
  refine ⟨(c6_amended_parse_totality (strOf "FOO")).1 (by decide),
    (c6_amended_parse_totality (strOf "FOO")).2.1 (by decide),
    (c6_amended_parse_totality (strOf "FOO")).2.2.1 (by decide),
    (c6_amended_parse_totality (strOf "999 Whatever")).2.2.2
      (strOf "999") (strOf "Whatever") (by decide) (by decide)⟩

/-- C7: on the block `"Key1: V1\r\nKey1: V2\r\n"` the claim expects
`get("Key1") = Some("V2")` and `len() = 1`. Construction succeeds, but
`HeaderMapIter::next` splits each line on `"\r\n"` instead of `": "`,
so the iterator ends immediately: `get` returns `None` and `len`
returns `0` on this (and every) block. -/
theorem c7_headermap_iteration_broken :
    HeaderMap.new (strOf "Key1: V1\r\nKey1: V2\r\n") =
      .ok (trimW (strOf "Key1: V1\r\nKey1: V2\r\n")) ∧
    HeaderMap.get (trimW (strOf "Key1: V1\r\nKey1: V2\r\n")) (strOf "Key1") = none ∧
    HeaderMap.len (trimW (strOf "Key1: V1\r\nKey1: V2\r\n")) = 0 := by
  refine ⟨by decide, by decide, by decide⟩

/-- C9: `finish` is a total function (it never fails), and applies the
required defaults: `build_response(Ok).finish()` has version HTTP/1.1,
no `Content-Length` header, no headers at all, and an absent (empty)
body; a request builder's `finish` defaults the URI to "/". -/
theorem c9_builder_defaults :
    ((ResponseBuilder.new .Ok).finish.version = .Http1 ∧
     hmGet (ResponseBuilder.new .Ok).finish.header (strOf "Content-Length") = none ∧
     (ResponseBuilder.new .Ok).finish.header = [] ∧
     (ResponseBuilder.new .Ok).finish.body = none) ∧
    (∀ m : Method, (RequestBuilder.new m).finish.uri = strOf "/" ∧
      (RequestBuilder.new m).finish.version = .Http1 ∧
      (RequestBuilder.new m).finish.body = []) := by
  refine ⟨by decide, fun m => ?_⟩
  cases m <;> decide

/-- C8: `HeaderMap` construction is all-or-nothing. After trimming the
block, splitting on `"\r\n"` and discarding empty lines: if some line
carries no occurrence of the `": "` delimiter anywhere, `HeaderMap::new`
fails with `InvalidHeader`; if every line carries the delimiter,
construction succeeds (storing the trimmed block). -/
theorem c8_headermap_all_or_nothing (s : Str) :
    ((∃ l ∈ (splitOnSub (strOf "\r\n") (trimW s)).filter (fun l => l ≠ []),
        ∀ i, (l.drop i).take (strOf ": ").length ≠ strOf ": ") →
      HeaderMap.new s = .error .InvalidHeader) ∧
    ((∀ l ∈ (splitOnSub (strOf "\r\n") (trimW s)).filter (fun l => l ≠ []),
        ∃ i, (l.drop i).take (strOf ": ").length = strOf ": ") →
      HeaderMap.new s = .ok (trimW s)) := by
  constructor
  · intro ⟨l, hl, hno⟩
    simp only [HeaderMap.new]
    rw [if_pos]
    rw [List.find?_isSome]
    refine ⟨splitOnceSub (strOf ": ") l, List.mem_map_of_mem _ hl, ?_⟩
    have : findSubIdx (strOf ": ") l = none :=
      (findSubIdx_eq_none_iff (by decide) l).mpr hno
    simp [splitOnceSub, this]
  · intro hall
    simp only [HeaderMap.new]
    rw [if_neg]
    intro hsome
    rw [List.find?_isSome] at hsome
    obtain ⟨o, ho, hnone⟩ := hsome
    rw [List.mem_map] at ho
    obtain ⟨l, hl, rfl⟩ := ho
    obtain ⟨i, hi⟩ := hall l hl
    have : findSubIdx (strOf ": ") l = none := by
      simp only [splitOnceSub, Option.isNone_iff_eq_none, Option.map_eq_none'] at hnone
      exact hnone
    exact (findSubIdx_eq_none_iff (by decide) l).mp this i hi

/-- C8 witness: a block whose second line misses the delimiter fails
construction; a block whose lines all carry it succeeds. -/
theorem c8_headermap_all_or_nothing_witness :
    HeaderMap.new (strOf "Key1: V1\r\nKey2\r\n") = .error .InvalidHeader ∧
    HeaderMap.new (strOf "K: V\r\nK2: V2\r\n") = .ok (trimW (strOf "K: V\r\nK2: V2\r\n")) := by
  constructor
  · refine (c8_headermap_all_or_nothing (strOf "Key1: V1\r\nKey2\r\n")).1
      ⟨strOf "Key2", by decide, ?_⟩
    exact (findSubIdx_eq_none_iff (by decide) (strOf "Key2")).mp (by decide)
  · refine (c8_headermap_all_or_nothing (strOf "K: V\r\nK2: V2\r\n")).2 ?_
    intro l hl
    have hmem : l = strOf "K: V" ∨ l = strOf "K2: V2" := by
      have : (splitOnSub (strOf "\r\n") (trimW (strOf "K: V\r\nK2: V2\r\n"))).filter
          (fun l => l ≠ []) = [strOf "K: V", strOf "K2: V2"] := by decide
      rw [this] at hl
      simpa using hl
    rcases hmem with rfl | rfl
    · exact ⟨1, by decide⟩
    · exact ⟨2, by decide⟩

/-- C10: whenever `Response::from_bytes` succeeds, the returned body is
`None` exactly when the parsed `Content-Length` value (defaulting to 0
when the header is absent) is zero, is `Some` of exactly that many bytes
when it is positive, and is never `Some` of an empty byte sequence. -/
theorem c10_response_body_shape (buf : List Nat) (r : Response)
    (h : Response.from_bytes buf = .ok r) :
    (r.body = none ↔
      parseUsize? ((hmGet r.header (strOf "Content-Length")).getD (strOf "0")) = some 0) ∧
    (∀ bs, r.body = some bs →
      parseUsize? ((hmGet r.header (strOf "Content-Length")).getD (strOf "0")) =
        some bs.length ∧ 0 < bs.length) ∧
    r.body ≠ some [] := by
  simp only [Response.from_bytes, bind, PResult.monad_bind_eq_bind,
    PResult.bind_eq_ok, optToP_eq_ok] at h
  obtain ⟨mid, hmid, h⟩ := h
  obtain ⟨hdr, hhdr, h⟩ := h
  obtain ⟨⟨rl, hls⟩, hsplit, h⟩ := h
  obtain ⟨⟨vtok, stok⟩, hvs, h⟩ := h
  obtain ⟨version, hver, h⟩ := h
  obtain ⟨status, hst, h⟩ := h
  obtain ⟨headers, hcoll, h⟩ := h
  obtain ⟨contentLen, hcl, h⟩ := h
  split at h
  · exact absurd h (by simp)
  · rename_i hnotshort
    split at h
    · rename_i hpos
      simp only [PResult.bind_eq_ok, sliceTo_eq_ok] at h
      obtain ⟨body, ⟨hble, rfl⟩, h⟩ := h
      simp only [List.length_drop] at hble
      cases h
      refine ⟨?_, ?_, ?_⟩
      · simp only []
        constructor
        · intro hc; exact absurd hc (by simp)
        · intro hc
          rw [hcl] at hc
          have : contentLen = 0 := by injection hc
          omega
      · intro bs hbs
        have hbs' : (buf.drop mid).take contentLen = bs := by injection hbs
        have hlen : bs.length = contentLen := by
          rw [← hbs']
          simp only [List.length_take, List.length_drop]
          omega
        rw [hlen, hcl]
        exact ⟨rfl, by omega⟩
      · intro hc
        have hbs' : (buf.drop mid).take contentLen = [] := by injection hc
        have := congrArg List.length hbs'
        simp only [List.length_take, List.length_drop, List.length_nil] at this
        omega
    · rename_i hzero
      cases h
      have hcl0 : contentLen = 0 := by omega
      refine ⟨?_, ?_, ?_⟩
      · simp only [hcl, hcl0]
      · intro bs hbs; exact absurd hbs (by simp)
      · simp

/-- C10 witness: the shape guarantee evaluated on a successfully parsed
response without a body. -/
theorem c10_response_body_shape_witness :
    Response.from_bytes (strOf "HTTP/1.1 200 OK\r\n\r\n") =
      .ok { version := .Http1, status := .Ok, header := [], body := none } ∧
    (({ version := .Http1, status := .Ok, header := [], body := none } : Response).body = none ↔
      parseUsize? ((hmGet ({ version := .Http1, status := .Ok, header := [], body := none } : Response).header (strOf "Content-Length")).getD (strOf "0")) = some 0) :=
  ⟨by decide, (c10_response_body_shape (strOf "HTTP/1.1 200 OK\r\n\r\n") _ (by decide)).1⟩

/-- C3 counterexample: the round-trip claim fails as stated. The message
produced by `build_response(Ok).body(vec![]).finish()` carries
`body = Some(empty)` and `Content-Length: 0`, but parsing its own
serialization returns a message with `body = None` — the body is not
identical, under any header ordering. -/
theorem c3_counterexample_roundtrip_fails :
    Response.from_bytes (Response.to_bytes ((ResponseBuilder.new .Ok).setBody []).finish) =
      .ok { version := .Http1, status := .Ok,
            header := [(strOf "Content-Length", strOf "0")], body := none } ∧
    (((ResponseBuilder.new .Ok).setBody []).finish).body = some [] := by
  constructor <;> decide

/-- C3 amended: round-tripping holds for every message a builder
produces from wire-safe fields: a URI that is a non-empty ASCII
whitespace-free token, uniquely-keyed headers whose names are ASCII
CR/LF-free without `": "` occurrences and not starting with whitespace
and whose values are non-empty ASCII CR/LF-free strings not ending with
whitespace, a body shorter than 2^64 bytes, and — for responses — a
status other than `NotImplemented` (whose parse panics, see C5) and a
body that is not `Some(empty)` (see the counterexample). Parsing the
serialized message then recovers it exactly — not merely up to header
ordering. -/
theorem c3_amended_builder_roundtrip (b : RequestBuilder) (rb : ResponseBuilder)
    (huri : tokenSafe (b.uri.getD (strOf "/")))
    (hbnd : (b.headers.map Prod.fst).Nodup)
    (hbsafe : ∀ kv ∈ b.headers, kv.1 ≠ strOf "Content-Length" →
      keySafe kv.1 ∧ valSafe kv.2)
    (hblen : (b.body.getD []).length < 2 ^ 64)
    (hst : rb.status ≠ .NotImplemented)
    (hrnd : (rb.header.map Prod.fst).Nodup)
    (hrsafe : ∀ kv ∈ rb.header, kv.1 ≠ strOf "Content-Length" →
      keySafe kv.1 ∧ valSafe kv.2)
    (hrlen : (rb.body.getD []).length < 2 ^ 64)
    (hrbody : rb.body ≠ some []) :
    Request.from_bytes (Request.to_bytes b.finish) = .ok b.finish ∧
    Response.from_bytes (Response.to_bytes rb.finish) = .ok rb.finish := by
  obtain ⟨h1, h2, h3⟩ := requestBuilder_finish_safe b huri hbnd hbsafe hblen
  obtain ⟨h4, h5⟩ := responseBuilder_finish_safe rb hrnd hrsafe hrlen
  exact ⟨request_roundtrip _ h1 h2 h3,
    response_roundtrip _ hst h4 h5 hrbody⟩

/-- C3 witness: the amended round-trip evaluated on a POST request with
a custom header and body and on a 200 response with a 3-byte body. -/
theorem c3_amended_builder_roundtrip_witness :
    Request.from_bytes (Request.to_bytes ({ RequestBuilder.new .Post with uri := some (strOf "/a"), headers := [(strOf "K", strOf "V")], body := some (strOf "hello") }).finish) = .ok ({ RequestBuilder.new .Post with uri := some (strOf "/a"), headers := [(strOf "K", strOf "V")], body := some (strOf "hello") }).finish ∧
    Response.from_bytes (Response.to_bytes ((ResponseBuilder.new .Ok).setBody (strOf "xyz")).finish) = .ok ((ResponseBuilder.new .Ok).setBody (strOf "xyz")).finish :=
  c3_amended_builder_roundtrip
    { RequestBuilder.new .Post with uri := some (strOf "/a"), headers := [(strOf "K", strOf "V")], body := some (strOf "hello") }
    ((ResponseBuilder.new .Ok).setBody (strOf "xyz"))
    (by decide) (by decide) (by decide) (by decide)
    (by decide) (by decide) (by decide) (by decide) (by decide)

end Reqse
